import Mathlib

/-! A shallow embedding of dividend-yahoo.js.

The script `dividend-yahoo.js` scrapes a price and a dividend row per ticker,
normalises the fields and posts them to a spreadsheet endpoint.  This file
embeds its pure logic and its retry / filter / cleanup control flow:

* JavaScript strings are sequences of characters (`String`, processed as
  `List Char`); every pattern the script matches lies in the Basic Multilingual
  Plane, so code units and code points coincide where it matters.
* JavaScript numbers are `JSNum`, IEEE 754 doubles: `NaN`, the two infinities,
  or a finite value `± mant * 2 ^ exp`.  `parseFloat` and `+` compute the exact
  value and round it to the nearest double, ties to even, with overflow to an
  infinity and underflow to a zero.
* Effects (log lines, sleeps, invocations of a wrapped operation, unlinks) are
  recorded as an explicit trace of `Event`s next to the result.
* A fetched page is represented by what the four cheerio queries of
  `fetchStockData` return on it (`Page`).
* An exception is the `error` side of `Except JSError _`.
-/

namespace StockGrabber

/-! ## Constants (lines 11-19) -/

def MIN_SLEEP_MS : Nat := 6000
def MAX_SLEEP_MS : Nat := 20000
def MAX_RETRIES : Nat := 5
def RETRY_DELAY_MS : Nat := 30000
def LOG_DIR : String := "log"
def MAX_LOG_FILES : Nat := 30

/-! ## Strings -/

/-- The characters removed by `String.prototype.trim` and skipped by `parseFloat`:
ECMAScript `WhiteSpace` and `LineTerminator`. -/
def isJSWhiteSpace (c : Char) : Bool :=
  let n := c.toNat
  n == 9 || n == 10 || n == 11 || n == 12 || n == 13 || n == 32 || n == 160 ||
  n == 5760 || (8192 ≤ n && n ≤ 8202) || n == 8232 || n == 8233 || n == 8239 ||
  n == 8287 || n == 12288 || n == 65279

/-- The method `String.prototype.trim`. -/
def jsTrim (s : List Char) : List Char :=
  ((s.dropWhile isJSWhiteSpace).reverse.dropWhile isJSWhiteSpace).reverse

/-- The call `s.replace(p, r)` with a one-character string pattern `p`: only the
first occurrence is replaced. -/
def replaceFirstChar (p r : Char) : List Char → List Char
  | [] => []
  | c :: cs => if c = p then r :: cs else c :: replaceFirstChar p r cs

/-- The call `s.replace(/p/g, r)` for a one-character pattern: every occurrence is
replaced.  Not used by the script; it is what a global replacement would do. -/
def replaceAllChar (p r : Char) : List Char → List Char
  | [] => []
  | c :: cs => (if c = p then r else c) :: replaceAllChar p r cs

/-- The apostrophe, the pattern of the first `replace` in `formatDate`. -/
def apostrophe : Char := Char.ofNat 39

/-- The alternatives of the regular expression of line 110. -/
def dateMarkers : List (List Char) :=
  ["即將發放".toList, "即將除息".toList, "即將除權".toList]

/-- Whether one of the alternatives matches at the start of `s`. -/
def startsWithMarker (s : List Char) : Bool :=
  dateMarkers.any (fun m => m.isPrefixOf s)

/-- A left-to-right scan deleting each match of the alternation; every
alternative is four characters long, so after a match at the current character
the next three are skipped. -/
def stripMarkersAux : Nat → List Char → List Char
  | _, [] => []
  | skip + 1, _ :: cs => stripMarkersAux skip cs
  | 0, c :: cs =>
    if startsWithMarker (c :: cs) then stripMarkersAux 3 cs
    else c :: stripMarkersAux 0 cs

/-- The call `s.replace(/即將發放|即將除息|即將除權/g, "")`. -/
def stripMarkers (s : List Char) : List Char := stripMarkersAux 0 s

/-- The function `formatDate` (lines 106-112).  The argument is `none` for
`undefined` (an index past the end of `trArray`). -/
def formatDate (dateString : Option String) : String :=
  match dateString with
  | none => ""
  | some s =>
    if s = "" then ""
    else String.mk (jsTrim (stripMarkers (replaceFirstChar apostrophe '/' s.toList)))

/-- What the date normalisation is described to do: every apostrophe becomes a
slash, the markers are removed, the result is trimmed. -/
def formatDateAllApostrophes (dateString : Option String) : String :=
  match dateString with
  | none => ""
  | some s =>
    if s = "" then ""
    else String.mk (jsTrim (stripMarkers (replaceAllChar apostrophe '/' s.toList)))

/-! ## Numbers -/

/-- A JavaScript number, an IEEE 754 double: `NaN`, an infinity with its sign, or
the finite value `(-1) ^ negative * mant * 2 ^ exp`.  The values produced by
`roundMag` are in canonical form: zero is `mant = 0, exp = 0`; otherwise
`mant < 2 ^ 53` and `-1074 <= exp <= 971`, with `2 ^ 52 <= mant` unless
`exp = -1074` (subnormal). -/
inductive JSNum where
  | nan
  | inf (negative : Bool)
  | fin (negative : Bool) (mant : Nat) (exp : Int)
  deriving DecidableEq, Repr

/-- Number of binary digits of `n`, by halving at most `fuel` times. -/
def bitLengthAux : Nat → Nat → Nat
  | 0, _ => 0
  | fuel + 1, n => if n = 0 then 0 else bitLengthAux fuel (n / 2) + 1

/-- Number of binary digits of `n` (`0` for `0`). -/
def bitLength (n : Nat) : Nat := bitLengthAux n n

/-- The integer `L` with `2 ^ L <= num / den < 2 ^ (L + 1)`, for `num, den > 0`. -/
def floorLog2Ratio (num den : Nat) : Int :=
  let l0 : Int := (bitLength num : Int) - (bitLength den : Int)
  if l0 ≥ 0 then
    if num ≥ den * 2 ^ l0.toNat then l0 else l0 - 1
  else
    if num * 2 ^ (-l0).toNat ≥ den then l0 else l0 - 1

namespace JSNum

/-- The double `± m * 2 ^ e` for a rounded significand `m <= 2 ^ 53`: a zero when
`m = 0`, the next binade when `m = 2 ^ 53`, an infinity above the largest
exponent. -/
def pack (negative : Bool) (m : Nat) (e : Int) : JSNum :=
  if m = 0 then fin negative 0 0
  else if m = 2 ^ 53 then
    (if e + 1 > 971 then inf negative else fin negative (2 ^ 52) (e + 1))
  else
    (if e > 971 then inf negative else fin negative m e)

/-- The double nearest to `num / den` (ties to even), with the given sign:
the conversion of a real number to a Number value.  Magnitudes that round to
`2 ^ 1024` or more give an infinity, magnitudes that round to less than
`2 ^ (-1074)` give a zero. -/
def roundMag (negative : Bool) (num den : Nat) : JSNum :=
  if num = 0 then fin negative 0 0
  else
    let e : Int := max (floorLog2Ratio num den - 52) (-1074)
    let n2 : Nat := if e < 0 then num * 2 ^ (-e).toNat else num
    let d2 : Nat := if e < 0 then den else den * 2 ^ e.toNat
    let q := n2 / d2
    let r := n2 % d2
    pack negative (if 2 * r > d2 ∨ (2 * r = d2 ∧ q % 2 = 1) then q + 1 else q) e

/-- The double nearest to `digits * 10 ^ exp10`, with the given sign: the Number
value of a decimal literal, correctly rounded at any number of digits (as V8
computes it). -/
def ofDecimal (negative : Bool) (digits : Nat) (exp10 : Int) : JSNum :=
  if exp10 ≥ 0 then roundMag negative (digits * 10 ^ exp10.toNat) 1
  else roundMag negative digits (10 ^ (-exp10).toNat)

/-- The number `0`. -/
def zero : JSNum := fin false 0 0

/-- Truthiness of a number: `NaN` and the two zeros are falsy. -/
def truthy : JSNum → Bool
  | nan => false
  | inf _ => true
  | fin _ m _ => m != 0

/-- The expression `x || 0`. -/
def orZero (x : JSNum) : JSNum := if x.truthy then x else zero

/-- A finite value as the integer `± mant * 2 ^ (exp - e)`, for `e <= exp`. -/
def scaled (negative : Bool) (mant : Nat) (exp e : Int) : Int :=
  if negative then - ((mant * 2 ^ (exp - e).toNat : Nat) : Int)
  else ((mant * 2 ^ (exp - e).toNat : Nat) : Int)

/-- The operator `+` on numbers: the exact sum, rounded to the nearest double.
An exact sum of zero is `-0` only when both operands are `-0`. -/
def add : JSNum → JSNum → JSNum
  | nan, _ => nan
  | _, nan => nan
  | inf a, inf b => if a = b then inf a else nan
  | inf a, fin _ _ _ => inf a
  | fin _ _ _, inf b => inf b
  | fin s₁ m₁ e₁, fin s₂ m₂ e₂ =>
    let e := min e₁ e₂
    let n : Int := scaled s₁ m₁ e₁ e + scaled s₂ m₂ e₂ e
    if n = 0 then fin (s₁ && s₂) 0 0
    else if e ≥ 0 then roundMag (decide (n < 0)) (n.natAbs * 2 ^ e.toNat) 1
    else roundMag (decide (n < 0)) n.natAbs (2 ^ (-e).toNat)

/-- The comparison `x >= 0`; false for `NaN`, true for both zeros. -/
def geZero : JSNum → Bool
  | nan => false
  | inf b => !b
  | fin s m _ => !s || m == 0

/-- The comparison `x < 0`; false for `NaN` and for both zeros. -/
def ltZero : JSNum → Bool
  | nan => false
  | inf b => b
  | fin s m _ => s && m != 0

/-- The comparison `x == y` on numbers: value equality, false when either side is
`NaN`, true between the two zeros. -/
def looseEq : JSNum → JSNum → Bool
  | nan, _ => false
  | _, nan => false
  | inf a, inf b => a == b
  | inf _, fin _ _ _ => false
  | fin _ _ _, inf _ => false
  | fin s₁ m₁ e₁, fin s₂ m₂ e₂ =>
    scaled s₁ m₁ e₁ (min e₁ e₂) == scaled s₂ m₂ e₂ (min e₁ e₂)

/-- Whether two numbers are infinities of opposite signs. -/
def oppositeInfinities : JSNum → JSNum → Bool
  | inf a, inf b => a != b
  | _, _ => false

end JSNum

/-- A decimal digit `0`..`9`. -/
def isDecimalDigit (c : Char) : Bool := 48 ≤ c.toNat && c.toNat ≤ 57

/-- The value of a run of decimal digits. -/
def digitsValue (ds : List Char) : Nat :=
  ds.foldl (fun n c => 10 * n + (c.toNat - 48)) 0

/-- The value of an optional `ExponentPart` at the start of `s` (`0` when there is
none): `e` or `E`, an optional sign, at least one digit. -/
def parseExponent (s : List Char) : Int :=
  match s with
  | [] => 0
  | c :: rest =>
    if c = 'e' ∨ c = 'E' then
      match rest with
      | [] => 0
      | d :: rest2 =>
        if d = '+' then
          if (rest2.takeWhile isDecimalDigit).isEmpty then 0
          else (digitsValue (rest2.takeWhile isDecimalDigit) : Int)
        else if d = '-' then
          if (rest2.takeWhile isDecimalDigit).isEmpty then 0
          else - (digitsValue (rest2.takeWhile isDecimalDigit) : Int)
        else
          if (rest.takeWhile isDecimalDigit).isEmpty then 0
          else (digitsValue (rest.takeWhile isDecimalDigit) : Int)
    else 0

/-- The longest prefix of `s` that is a `StrUnsignedDecimalLiteral`, as the Number
value of its mathematical value with the given sign; `none` when no prefix is
one. -/
def parseUnsignedDecimal (negative : Bool) (s : List Char) : Option JSNum :=
  if "Infinity".toList.isPrefixOf s then some (JSNum.inf negative)
  else
    let ip := s.takeWhile isDecimalDigit
    match s.dropWhile isDecimalDigit with
    | [] => if ip.isEmpty then none else some (JSNum.ofDecimal negative (digitsValue ip) 0)
    | c :: r =>
      if c = '.' then
        let fp := r.takeWhile isDecimalDigit
        if ip.isEmpty && fp.isEmpty then none
        else some (JSNum.ofDecimal negative (digitsValue (ip ++ fp))
                    (parseExponent (r.dropWhile isDecimalDigit) - fp.length))
      else if ip.isEmpty then none
      else some (JSNum.ofDecimal negative (digitsValue ip) (parseExponent (c :: r)))

/-- The global function `parseFloat` on a string. -/
def parseFloatStr (s : List Char) : JSNum :=
  match s.dropWhile isJSWhiteSpace with
  | [] => JSNum.nan
  | c :: r =>
    if c = '+' then (parseUnsignedDecimal false r).getD JSNum.nan
    else if c = '-' then (parseUnsignedDecimal true r).getD JSNum.nan
    else (parseUnsignedDecimal false (c :: r)).getD JSNum.nan

/-- The global function `parseFloat` applied to an array element: `undefined`
(`none`) is first converted to the string `undefined`. -/
def parseFloat (x : Option String) : JSNum :=
  match x with
  | none => parseFloatStr "undefined".toList
  | some s => parseFloatStr s.toList

/-! ## Errors, log lines and effect traces -/

/-- A thrown JavaScript error object: its `name` and its `message`. -/
structure JSError where
  name : String
  message : String
  deriving DecidableEq, Repr

/-- The methods of `logger` that take a message (lines 63-78). -/
inductive Level where
  | log
  | warn
  | error
  deriving DecidableEq, Repr

/-- The log lines written by the embedded functions, one constructor per template
string, carrying the values interpolated into it.  The timestamp prefix added by
`createFormattedMessage` is not represented. -/
inductive Message where
  /-- Line 125. -/
  | retryAttemptFailed (attempt maxRetries : Nat) (fnName errMessage : String)
  /-- Line 128. -/
  | retryWait (seconds : Nat)
  /-- Line 131. -/
  | retryGiveUp (maxRetries : Nat) (fnName : String)
  /-- Line 215. -/
  | fetchingStockList
  /-- Line 227. -/
  | invalidItem (shown : String)
  /-- Line 231. -/
  | stockListDone (count : Nat)
  /-- Line 244. -/
  | fetchingUrl (url : String)
  /-- Line 253. -/
  | priceMissing (stockNo : String)
  /-- Line 255. -/
  | priceRead (stockNo price : String)
  /-- Line 269. -/
  | firstRowEmpty (stockNo : String)
  /-- Line 288. -/
  | noDividendData (stockNo : String)
  /-- Line 305. -/
  | parseFailed (stockNo : String)
  /-- Line 327. -/
  | parsedOk
  /-- Line 331. -/
  | stockError (stockNo errMessage : String)
  /-- Line 380. -/
  | skipNonTaiwan (ticker : String)
  /-- Line 143. -/
  | cleanupStart (dir : String)
  /-- Line 153. -/
  | cleanupDeleting (found keep deleting : Nat)
  /-- Line 156. -/
  | cleanupDeleted (name : String)
  /-- Line 159. -/
  | cleanupNothing (found : Nat)
  /-- Line 162. -/
  | cleanupError (errMessage : String)
  deriving DecidableEq, Repr

deriving instance DecidableEq for Except

/-- An observable effect. -/
inductive Event where
  /-- The wrapped operation of `withRetry` is called (`fn()`) in the given attempt. -/
  | invoke (fnName : String) (attempt : Nat)
  /-- A call of `logger.log`, `logger.warn` or `logger.error`. -/
  | log (level : Level) (msg : Message)
  /-- A call of `logger.dir` on an error object. -/
  | dir (err : JSError)
  /-- A completed `await sleep(ms)`. -/
  | sleep (ms : Nat)
  /-- A successful `fs.unlinkSync` of the named file of the log directory. -/
  | unlink (name : String)
  deriving DecidableEq, Repr

/-- A finished computation: the effects it performed, in order, and how it
completed (`ok v`: returned or resolved with `v`; `error e`: threw or rejected
with `e`). -/
structure Trace (α : Type) where
  events : List Event
  result : Except JSError α

/-! ## withRetry (lines 120-136) -/

/-- An effect in a run of `withRetry`: a call of the wrapped operation, an effect
performed inside that call by the operation, or an effect of `withRetry` itself
(its log lines and its sleeps). -/
inductive RetryEvent where
  | invoke (fnName : String) (attempt : Nat)
  | fromOperation (e : Event)
  | own (e : Event)
  deriving DecidableEq, Repr

/-- A finished run of `withRetry`. -/
structure RetryTrace (α : Type) where
  events : List RetryEvent
  result : Except JSError α

/-- The loop of `withRetry`, entered with `attempt` and `remaining` iterations
left before the condition `attempt <= MAX_RETRIES` fails
(`remaining = MAX_RETRIES + 1 - attempt`).  The operation `fn` is given by what
its call in each attempt does.  Leaving the loop by its condition resolves with
`undefined` (`none`). -/
def withRetryLoop {α : Type} (fn : Nat → Trace α) (fnName : String) :
    Nat → Nat → RetryTrace (Option α)
  | 0, _ => ⟨[], .ok none⟩
  | remaining + 1, attempt =>
    let call := fn attempt
    match call.result with
    | .ok v =>
      ⟨RetryEvent.invoke fnName attempt :: call.events.map RetryEvent.fromOperation,
       .ok (some v)⟩
    | .error err =>
      let failed : List RetryEvent :=
        RetryEvent.invoke fnName attempt :: call.events.map RetryEvent.fromOperation ++
          [RetryEvent.own (Event.log Level.error
              (Message.retryAttemptFailed attempt MAX_RETRIES fnName err.message)),
           RetryEvent.own (Event.dir err)]
      if attempt < MAX_RETRIES then
        let rest := withRetryLoop fn fnName remaining (attempt + 1)
        ⟨failed ++
          [RetryEvent.own (Event.log Level.log (Message.retryWait (RETRY_DELAY_MS / 1000))),
           RetryEvent.own (Event.sleep RETRY_DELAY_MS)] ++ rest.events, rest.result⟩
      else
        ⟨failed ++
          [RetryEvent.own (Event.log Level.error (Message.retryGiveUp MAX_RETRIES fnName))],
         .error err⟩

/-- The function `withRetry`. -/
def withRetry {α : Type} (fn : Nat → Trace α) (fnName : String) : RetryTrace (Option α) :=
  withRetryLoop fn fnName MAX_RETRIES 1

/-- Whether an event is a call of the wrapped operation. -/
def RetryEvent.isInvoke : RetryEvent → Bool
  | RetryEvent.invoke _ _ => true
  | _ => false

/-- Whether an event is a failure entry of `withRetry` (the message of line 125). -/
def RetryEvent.isFailureEntry : RetryEvent → Bool
  | RetryEvent.own (Event.log Level.error (Message.retryAttemptFailed _ _ _ _)) => true
  | _ => false

/-- The duration, when an event is a sleep of `withRetry`. -/
def RetryEvent.delayOf : RetryEvent → Option Nat
  | RetryEvent.own (Event.sleep ms) => some ms
  | _ => none

/-- Whether an event is a warning logged by the wrapped operation. -/
def RetryEvent.isWarning : RetryEvent → Bool
  | RetryEvent.fromOperation (Event.log Level.warn _) => true
  | _ => false

/-- Number of calls of the wrapped operation in a run. -/
def countInvocations (evs : List RetryEvent) : Nat := evs.countP RetryEvent.isInvoke

/-- Number of failure entries in a run. -/
def countFailureEntries (evs : List RetryEvent) : Nat := evs.countP RetryEvent.isFailureEntry

/-- The delays between attempts in a run, in order. -/
def delays (evs : List RetryEvent) : List Nat := evs.filterMap RetryEvent.delayOf

/-- Number of warnings logged by the wrapped operation in a run. -/
def countWarnings (evs : List RetryEvent) : Nat := evs.countP RetryEvent.isWarning

/-- How the retry layer is described to fail: with an error of kind
`ExhaustedRetries` around the last error.  The script defines no such error. -/
def IsExhaustedRetries (e : JSError) : Prop := e.name = "ExhaustedRetries"

/-! ## getStockList (lines 213-234) -/

/-- An element of the array answered by the store: a string, or another JSON
value, kept as the text a template string shows for it. -/
inductive Item where
  | str (s : String)
  | other (shown : String)
  deriving DecidableEq, Repr

/-- The text a template string shows for an item. -/
def Item.shown : Item → String
  | Item.str s => s
  | Item.other t => t

/-- The call `s.split(sep)` with a one-character separator. -/
def jsSplit (sep : Char) : List Char → List (List Char)
  | [] => [[]]
  | c :: cs =>
    if c = sep then [] :: jsSplit sep cs
    else
      match jsSplit sep cs with
      | [] => [[c]]
      | h :: t => (c :: h) :: t

/-- An element of the stock list, `[yahooTicker, item]`; the ticker is `none` when
it is `undefined`. -/
abbrev StockItem := Option String × String

/-- The callback of `response.data.forEach` (lines 222-229) on one item, given the
list built so far. -/
def stockListStep (acc : List StockItem × List Event) (item : Item) :
    List StockItem × List Event :=
  match item with
  | Item.str s =>
    if '|' ∈ s.toList then
      let yahooTicker := ((jsSplit '|' s.toList)[1]?).map String.mk
      (acc.1 ++ [(yahooTicker, s)], acc.2)
    else (acc.1, acc.2 ++ [Event.log Level.warn (Message.invalidItem s)])
  | Item.other t => (acc.1, acc.2 ++ [Event.log Level.warn (Message.invalidItem t)])

/-- The operation wrapped by `getStockList` (lines 214-233): `response` is the
outcome of the request; a rejected request, or an answer whose data is not an
array, throws. -/
def getStockListOnce (response : Except JSError (List Item)) : Trace (List StockItem) :=
  match response with
  | .error e => ⟨[Event.log Level.log Message.fetchingStockList], .error e⟩
  | .ok data =>
    let out := data.foldl stockListStep ([], [])
    ⟨Event.log Level.log Message.fetchingStockList :: out.2 ++
        [Event.log Level.log (Message.stockListDone out.1.length)], .ok out.1⟩

/-- The function `getStockList`; `responses n` is the outcome of the request made
in attempt `n`. -/
def getStockList (responses : Nat → Except JSError (List Item)) :
    RetryTrace (Option (List StockItem)) :=
  withRetry (fun n => getStockListOnce (responses n)) "getStockList"

/-! ## fetchStockData (lines 241-334) -/

/-- The record returned by `fetchStockData`. -/
structure DividendRecord where
  stockNo : String
  tickers : String
  price : String
  divYear : String
  divDateCash : String
  divDateCashPay : String
  divDateStock : String
  divDateStockPay : String
  divCash : JSNum
  divStock : JSNum
  divTotal : JSNum
  deriving DecidableEq, Repr

/-- A loaded page, as seen through the cheerio queries of `fetchStockData`; each
text is what `.text()` returns. -/
structure Page where
  /-- Line 251: the first `span` after the quote header. -/
  price : String
  /-- Lines 261-265: the `div`s of the first child of the first `li`. -/
  firstRow : List String
  /-- Lines 271-275: the `div`s of the first child of the second `li`. -/
  secondRow : List String
  /-- Line 281: every `div` below the sibling of the dividend section. -/
  sectionDivs : List String
  deriving DecidableEq, Repr

/-- The error thrown by `trArray[2].length` when `trArray[2]` is `undefined`. -/
def undefinedLengthError : JSError :=
  ⟨"TypeError", "Cannot read properties of undefined (reading length)"⟩

/-- The expression `price || "N/A"`. -/
def priceOrNA (price : String) : String := if price = "" then "N/A" else price

/-- Lines 258-276: the first row, or the second row when the first is non-empty
and its element 2 is the empty string. -/
def selectRow (stockNo : String) (page : Page) : Trace (List String) :=
  let trArray := page.firstRow
  if trArray.length > 0 then
    match trArray[2]? with
    | none => ⟨[], .error undefinedLengthError⟩
    | some year =>
      if year.length = 0 then
        ⟨[Event.log Level.log (Message.firstRowEmpty stockNo)], .ok page.secondRow⟩
      else ⟨[], .ok trArray⟩
  else ⟨[], .ok trArray⟩

/-- Lines 280-285: whether some `div` of the section has the text of the
no-data notice. -/
def noDataFound (page : Page) : Bool :=
  page.sectionDivs.foldl (fun found t => if t = "查無資料" then true else found) false

/-- Lines 290-302: the record of a ticker without dividend data. -/
def emptyRecord (stockNo originalTicker price : String) : DividendRecord :=
  { stockNo := stockNo, tickers := originalTicker, price := priceOrNA price,
    divYear := "", divDateCash := "", divDateCashPay := "", divDateStock := "",
    divDateStockPay := "", divCash := JSNum.zero, divStock := JSNum.zero,
    divTotal := JSNum.zero }

/-- Lines 310-325: the record built from a non-empty row. -/
def buildRecord (stockNo originalTicker price : String) (trArray : List String) :
    DividendRecord :=
  let cashDividend := (parseFloat trArray[3]?).orZero
  let stockDividend := (parseFloat trArray[4]?).orZero
  { stockNo := stockNo, tickers := originalTicker, price := priceOrNA price,
    divYear := (trArray[2]?).getD "",
    divDateCash := formatDate trArray[7]?,
    divDateCashPay := formatDate trArray[9]?,
    divDateStock := formatDate trArray[8]?,
    divDateStockPay := formatDate trArray[10]?,
    divCash := cashDividend, divStock := stockDividend,
    divTotal := cashDividend.add stockDividend }

/-- The `try` block of `fetchStockData` (lines 247-328); `response` is the outcome
of the page request. -/
def fetchStockDataTry (stockNo originalTicker : String) (response : Except JSError Page) :
    Trace (Option DividendRecord) :=
  match response with
  | .error e => ⟨[], .error e⟩
  | .ok page =>
    let priceEvent : Event :=
      if page.price = "" then Event.log Level.warn (Message.priceMissing stockNo)
      else Event.log Level.log (Message.priceRead stockNo page.price)
    let row := selectRow stockNo page
    match row.result with
    | .error e => ⟨priceEvent :: row.events, .error e⟩
    | .ok trArray =>
      if trArray.length = 0 then
        if noDataFound page then
          ⟨priceEvent :: row.events ++ [Event.log Level.log (Message.noDividendData stockNo)],
           .ok (some (emptyRecord stockNo originalTicker page.price))⟩
        else
          ⟨priceEvent :: row.events ++ [Event.log Level.error (Message.parseFailed stockNo)],
           .ok none⟩
      else
        ⟨priceEvent :: row.events ++ [Event.log Level.log Message.parsedOk],
         .ok (some (buildRecord stockNo originalTicker page.price trArray))⟩

/-- The function `fetchStockData` on the entry `[stockNo, originalTicker]`; `main`
calls it on entries kept by its filter, whose ticker is a string.  The result
`none` is `null`. -/
def fetchStockData (stockItem : String × String) (response : Except JSError Page) :
    Trace (Option DividendRecord) :=
  let stockNo := stockItem.1
  let originalTicker := stockItem.2
  let stockURL := "https://tw.stock.yahoo.com/quote/" ++ stockNo ++ "/dividend"
  let body := fetchStockDataTry stockNo originalTicker response
  match body.result with
  | .ok r => ⟨Event.log Level.log (Message.fetchingUrl stockURL) :: body.events, .ok r⟩
  | .error err =>
    ⟨Event.log Level.log (Message.fetchingUrl stockURL) :: body.events ++
        [Event.log Level.error (Message.stockError stockNo err.message)], .ok none⟩

/-! ## The filter of main (lines 376-383) -/

/-- The call `s.endsWith(suffix)`. -/
def jsEndsWith (s suffix : String) : Bool := suffix.toList.isSuffixOf s.toList

/-- The error thrown by `ticker.endsWith` when `ticker` is `undefined`. -/
def undefinedEndsWithError : JSError :=
  ⟨"TypeError", "Cannot read properties of undefined (reading endsWith)"⟩

/-- The test of line 378. -/
def isTaiwanStock (ticker : String) : Bool :=
  jsEndsWith ticker ".TW" || jsEndsWith ticker ".TWO"

/-- The call `allStocks.filter(...)` of lines 376-383: the callback runs on the
items in order; a throwing callback ends the call. -/
def filterStocks : List StockItem → List StockItem → List Event → Trace (List StockItem)
  | [], kept, evs => ⟨evs, .ok kept⟩
  | item :: rest, kept, evs =>
    match item.1 with
    | none => ⟨evs, .error undefinedEndsWithError⟩
    | some ticker =>
      if isTaiwanStock ticker then filterStocks rest (kept ++ [item]) evs
      else filterStocks rest kept (evs ++ [Event.log Level.log (Message.skipNonTaiwan ticker)])

/-- The list `filteredStocks` of `main`, from the list `allStocks`. -/
def filteredStocks (allStocks : List StockItem) : Trace (List StockItem) :=
  filterStocks allStocks [] []

/-! ## cleanupLogFiles (lines 141-164) -/

/-- An entry of the log directory: its name, its modification time in
milliseconds, and whether it is a directory (which `unlinkSync` refuses). -/
structure DirEntry where
  name : String
  mtime : Int
  isDirectory : Bool
  deriving DecidableEq, Repr

/-- The elements of the array `files`: `{ name, time }`. -/
structure FileInfo where
  name : String
  time : Int
  deriving DecidableEq, Repr

/-- The order of the comparator `(a, b) => b.time - a.time`: `a` may stand before
`b` when it is at least as recent. -/
def newerFirst (a b : FileInfo) : Prop := b.time ≤ a.time

instance : DecidableRel newerFirst := fun a b => inferInstanceAs (Decidable (b.time ≤ a.time))

instance : IsTotal FileInfo newerFirst := ⟨fun a b => le_total b.time a.time⟩

instance : IsTrans FileInfo newerFirst :=
  ⟨fun _ _ _ hab hbc => le_trans (α := Int) hbc hab⟩

/-- The call `fs.unlinkSync(path.join(LOG_DIR, name))` on the directory listing:
the entry is removed; a missing entry or a directory throws. -/
def unlinkSync (dir : List DirEntry) (name : String) : Except JSError (List DirEntry) :=
  match dir.find? (fun e => e.name = name) with
  | none => .error ⟨"Error", "ENOENT: no such file or directory, unlink"⟩
  | some e =>
    if e.isDirectory then .error ⟨"Error", "EISDIR: illegal operation on a directory, unlink"⟩
    else .ok (dir.filter (fun e => e.name ≠ name))

/-- The loop of lines 154-157; it stops at the first failing `unlinkSync`. -/
def deleteFiles : List FileInfo → List DirEntry → List Event →
    List DirEntry × List Event × Option JSError
  | [], dir, evs => (dir, evs, none)
  | file :: rest, dir, evs =>
    match unlinkSync dir file.name with
    | .error e => (dir, evs, some e)
    | .ok dir2 =>
      deleteFiles rest dir2
        (evs ++ [Event.unlink file.name, Event.log Level.log (Message.cleanupDeleted file.name)])

/-- The element of `files` made from a directory entry (lines 145-148). -/
def toFileInfo (e : DirEntry) : FileInfo := ⟨e.name, e.mtime⟩

/-- The array `files` of lines 144-149: the entries with their times, sorted by
the comparator (a stable sort, most recent first). -/
def sortedFiles (dir : List DirEntry) : List FileInfo :=
  (dir.map toFileInfo).insertionSort newerFirst

/-- The function `cleanupLogFiles` on the listing of the log directory: the
listing it leaves and the effects performed. -/
def cleanupLogFiles (dir : List DirEntry) : List DirEntry × List Event :=
  let files := sortedFiles dir
  let start := Event.log Level.log (Message.cleanupStart LOG_DIR)
  if files.length > MAX_LOG_FILES then
    let filesToDelete := files.drop MAX_LOG_FILES
    let announce := Event.log Level.log
      (Message.cleanupDeleting files.length MAX_LOG_FILES filesToDelete.length)
    match deleteFiles filesToDelete dir [start, announce] with
    | (dir2, evs, none) => (dir2, evs)
    | (dir2, evs, some err) =>
      (dir2, evs ++ [Event.log Level.error (Message.cleanupError err.message)])
  else
    (dir, [start, Event.log Level.log (Message.cleanupNothing files.length)])

/-! ## Descriptions used in the statements -/

/-- The text after the first occurrence of `sep`. -/
def afterFirst (sep : Char) (s : List Char) : List Char :=
  (s.dropWhile (fun c => c != sep)).drop 1

/-- The text between the first occurrence of `sep` and the next one (or the end). -/
def secondField (sep : Char) (s : List Char) : List Char :=
  (afterFirst sep s).takeWhile (fun c => c != sep)

/-- The pair `getStockList` is described to produce for an item: the ticker is
everything after the first bar. -/
def describedPair : Item → Option StockItem
  | Item.str s =>
    if '|' ∈ s.toList then some (some (String.mk (afterFirst '|' s.toList)), s) else none
  | Item.other _ => none

/-- The pair produced for an item, in closed form: the ticker is the second
bar-separated field. -/
def tickerPair : Item → Option StockItem
  | Item.str s =>
    if '|' ∈ s.toList then some (some (String.mk (secondField '|' s.toList)), s) else none
  | Item.other _ => none

/-- The test of line 378 on an element of the stock list. -/
def keptByFilter (item : StockItem) : Bool :=
  match item.1 with
  | some ticker => isTaiwanStock ticker
  | none => false

/-- A page used in examples: the year of the first row is a blank, the second row
is a 2024 row. -/
def blankYearPage : Page :=
  { price := "100", firstRow := ["", "", " ", "1.5", "0"],
    secondRow := ["", "", "2024", "2", "0"], sectionDivs := [] }

/-- A page used in examples: the year of the first row is empty, the second row
is a 2024 row with dates. -/
def fallbackPage : Page :=
  { price := "100", firstRow := ["", "", "", "", ""],
    secondRow := ["", "", "2024", "2", "0.5", "", "", "2024/06/13", "", "2024/07/11", ""],
    sectionDivs := [] }

/-- A page used in examples: a first row whose cash amount is negative. -/
def negativeCashPage : Page :=
  { price := "100", firstRow := ["", "", "2024", "-1", "0"], secondRow := [],
    sectionDivs := [] }

/-- A page used in examples: a first row whose amounts are the texts `Infinity`
and `-Infinity`. -/
def oppositeInfinitiesPage : Page :=
  { price := "100", firstRow := ["", "", "2024", "Infinity", "-Infinity"],
    secondRow := [], sectionDivs := [] }

/-- A page used in examples: no rows, and the no-data notice. -/
def noDataPage : Page :=
  { price := "100", firstRow := [], secondRow := [], sectionDivs := ["", "查無資料"] }

/-- A page used in examples: a first row of two fields. -/
def shortRowPage : Page :=
  { price := "100", firstRow := ["a", "b"], secondRow := [], sectionDivs := [] }

/-- An error used in examples. -/
def boom : JSError := ⟨"Error", "boom"⟩

/-- The names passed to successful `unlinkSync` calls, in order. -/
def unlinked (evs : List Event) : List String :=
  evs.filterMap (fun e => match e with | Event.unlink n => some n | _ => none)

/-- The completion of `fetchStockData` in closed form. -/
def fetchResult (stockItem : String × String) (response : Except JSError Page) :
    Option DividendRecord :=
  match response with
  | .error _ => none
  | .ok page =>
    match (selectRow stockItem.1 page).result with
    | .error _ => none
    | .ok row =>
      if row = [] then
        if noDataFound page then some (emptyRecord stockItem.1 stockItem.2 page.price)
        else none
      else some (buildRecord stockItem.1 stockItem.2 page.price row)

/-- A log directory used in examples: 35 files, file `i` modified at time
`1000 * i`. -/
def sampleLogDir : List DirEntry :=
  (List.range 35).map (fun i => ⟨"run-" ++ toString i ++ ".log", 1000 * (i : Int), false⟩)

/-! ## formatDate -/

/-- C1: on the date of the specification, `formatDate` replaces only the first
apostrophe: the result keeps the second one, so it is not `2024/06/15`, which is
what replacing every apostrophe gives. -/
theorem formatDate_replaces_first_apostrophe_only :
    formatDate (some "2024'06'15即將除息") = "2024/06'15" ∧
    formatDate (some "2024'06'15即將除息") ≠ "2024/06/15" ∧
    formatDateAllApostrophes (some "2024'06'15即將除息") = "2024/06/15" := by
  decide

/-! ## Amounts -/

theorem JSNum.orZero_ne_nan (x : JSNum) : x.orZero ≠ JSNum.nan := by
  cases x <;> simp [JSNum.orZero, JSNum.truthy, JSNum.zero]
  split <;> simp

theorem JSNum.orZero_geZero (x : JSNum) (h : x.ltZero = false) : x.orZero.geZero = true := by
  cases x with
  | nan => simp [JSNum.orZero, JSNum.truthy, JSNum.zero, JSNum.geZero]
  | inf b =>
    simp [JSNum.ltZero] at h
    simp [JSNum.orZero, JSNum.truthy, JSNum.geZero, h]
  | fin s m e =>
    by_cases hm : m = 0
    · simp [JSNum.orZero, JSNum.truthy, JSNum.zero, JSNum.geZero, hm]
    · have hs : s = false := by
        cases s with
        | false => rfl
        | true => simp [JSNum.ltZero, hm] at h
      simp [JSNum.orZero, JSNum.truthy, JSNum.geZero, hm, hs]

theorem JSNum.pack_shape (negative : Bool) (m : Nat) (e : Int) :
    JSNum.pack negative m e = JSNum.inf negative ∨
    ∃ m2 e2, JSNum.pack negative m e = JSNum.fin negative m2 e2 := by
  unfold JSNum.pack
  by_cases h0 : m = 0
  · rw [if_pos h0]; exact Or.inr ⟨_, _, rfl⟩
  · rw [if_neg h0]
    by_cases h53 : m = 2 ^ 53
    · rw [if_pos h53]
      by_cases he : e + 1 > 971
      · rw [if_pos he]; exact Or.inl rfl
      · rw [if_neg he]; exact Or.inr ⟨_, _, rfl⟩
    · rw [if_neg h53]
      by_cases he : e > 971
      · rw [if_pos he]; exact Or.inl rfl
      · rw [if_neg he]; exact Or.inr ⟨_, _, rfl⟩

/-- The result of a rounding is an infinity or a finite value of the given sign. -/
theorem JSNum.roundMag_shape (negative : Bool) (num den : Nat) :
    JSNum.roundMag negative num den = JSNum.inf negative ∨
    ∃ m e, JSNum.roundMag negative num den = JSNum.fin negative m e := by
  unfold JSNum.roundMag
  by_cases h0 : num = 0
  · rw [if_pos h0]; exact Or.inr ⟨_, _, rfl⟩
  · rw [if_neg h0]
    exact JSNum.pack_shape _ _ _

theorem JSNum.roundMag_ne_nan (negative : Bool) (num den : Nat) :
    JSNum.roundMag negative num den ≠ JSNum.nan := by
  rcases JSNum.roundMag_shape negative num den with h | ⟨m, e, h⟩ <;> rw [h] <;> simp

theorem JSNum.roundMag_false_geZero (num den : Nat) :
    (JSNum.roundMag false num den).geZero = true := by
  rcases JSNum.roundMag_shape false num den with h | ⟨m, e, h⟩ <;> rw [h] <;>
    simp [JSNum.geZero]

/-- A sum is `NaN` exactly when an operand is, or the operands are infinities of
opposite signs. -/
theorem JSNum.add_eq_nan_iff (x y : JSNum) :
    x.add y = JSNum.nan ↔ x = JSNum.nan ∨ y = JSNum.nan ∨ x.oppositeInfinities y = true := by
  cases x with
  | nan => simp [JSNum.add]
  | inf a =>
    cases y with
    | nan => simp [JSNum.add]
    | inf b => cases a <;> cases b <;> simp [JSNum.add, JSNum.oppositeInfinities]
    | fin s m e => simp [JSNum.add, JSNum.oppositeInfinities]
  | fin s m e =>
    cases y with
    | nan => simp [JSNum.add]
    | inf b => simp [JSNum.add, JSNum.oppositeInfinities]
    | fin s2 m2 e2 =>
      simp only [JSNum.add, JSNum.oppositeInfinities, false_or, reduceCtorEq, iff_false,
        Bool.false_eq_true, or_self]
      split
      · simp
      · split
        · exact JSNum.roundMag_ne_nan _ _ _
        · exact JSNum.roundMag_ne_nan _ _ _

theorem JSNum.looseEq_self (z : JSNum) (h : z ≠ JSNum.nan) : z.looseEq z = true := by
  cases z with
  | nan => exact absurd rfl h
  | inf a => simp [JSNum.looseEq]
  | fin s m e => simp [JSNum.looseEq]

theorem JSNum.looseEq_nan_left (z : JSNum) : JSNum.nan.looseEq z = false := by
  cases z <;> rfl

theorem JSNum.scaled_nonneg (s : Bool) (m : Nat) (e e2 : Int)
    (h : (JSNum.fin s m e).geZero = true) : 0 ≤ JSNum.scaled s m e e2 := by
  cases s with
  | false => simp [JSNum.scaled]
  | true =>
    have hm : m = 0 := by simpa [JSNum.geZero] using h
    simp [JSNum.scaled, hm]

theorem JSNum.add_geZero (x y : JSNum) (hx : x.geZero = true) (hy : y.geZero = true) :
    (x.add y).geZero = true := by
  cases x with
  | nan => simp [JSNum.geZero] at hx
  | inf a =>
    simp [JSNum.geZero] at hx
    subst hx
    cases y with
    | nan => simp [JSNum.geZero] at hy
    | inf b =>
      simp [JSNum.geZero] at hy
      subst hy
      simp [JSNum.add, JSNum.geZero]
    | fin s m e => simp [JSNum.add, JSNum.geZero]
  | fin s m e =>
    cases y with
    | nan => simp [JSNum.geZero] at hy
    | inf b =>
      simp [JSNum.geZero] at hy
      subst hy
      simp [JSNum.add, JSNum.geZero]
    | fin s2 m2 e2 =>
      have h1 := JSNum.scaled_nonneg s m e (min e e2) hx
      have h2 := JSNum.scaled_nonneg s2 m2 e2 (min e e2) hy
      have hneg : decide (JSNum.scaled s m e (min e e2) + JSNum.scaled s2 m2 e2 (min e e2) < 0)
          = false := by
        simp only [decide_eq_false_iff_not, not_lt]
        omega
      simp only [JSNum.add, hneg]
      split
      · simp [JSNum.geZero]
      · split
        · exact JSNum.roundMag_false_geZero _ _
        · exact JSNum.roundMag_false_geZero _ _

theorem JSNum.orZero_of_nan (x : JSNum) (h : x = JSNum.nan) : x.orZero = JSNum.zero := by
  subst h; rfl

/-- Rounding of amounts: the text `0.1` parses to the double
`7205759403792794 * 2 ^ (-56)`; `0.1 + 0.2` is the double that
`0.30000000000000004` parses to, not the one `0.3` parses to; the smallest
subnormal and its opposite add up to `0`. -/
theorem parseFloat_rounding_examples :
    parseFloat (some "0.1") = JSNum.fin false 7205759403792794 (-56) ∧
    (parseFloat (some "0.1")).add (parseFloat (some "0.2"))
      = JSNum.fin false 5404319552844596 (-54) ∧
    parseFloat (some "0.30000000000000004") = JSNum.fin false 5404319552844596 (-54) ∧
    parseFloat (some "0.3") = JSNum.fin false 5404319552844595 (-54) ∧
    (JSNum.fin true 1 (-1074)).add (JSNum.fin false 1 (-1074)) = JSNum.fin false 0 0 :=
  ⟨by decide, by decide, by decide, by decide, by decide⟩

/-! ## fetchStockData: how it completes -/

theorem fetchStockData_result (stockItem : String × String) (response : Except JSError Page) :
    (fetchStockData stockItem response).result = .ok (fetchResult stockItem response) := by
  cases response with
  | error e => simp [fetchStockData, fetchStockDataTry, fetchResult]
  | ok page =>
    simp only [fetchStockData, fetchStockDataTry, fetchResult]
    cases hrow : (selectRow stockItem.1 page).result with
    | error e => simp
    | ok row =>
      cases row with
      | nil => by_cases hn : noDataFound page <;> simp [hn]
      | cons a t => simp

theorem noDataFound_foldl (l : List String) (b : Bool) :
    l.foldl (fun found t => if t = "查無資料" then true else found) b
      = (b || decide ("查無資料" ∈ l)) := by
  induction l generalizing b with
  | nil => simp
  | cons a t ih =>
    simp only [List.foldl_cons, ih]
    by_cases ha : a = "查無資料"
    · simp [ha]
    · have : ¬ "查無資料" = a := fun h => ha h.symm
      simp [ha, this]

theorem noDataFound_iff (page : Page) :
    noDataFound page = true ↔ "查無資料" ∈ page.sectionDivs := by
  rw [noDataFound, noDataFound_foldl]; simp

theorem selectRow_first_empty (stockNo : String) (page : Page) (h : page.firstRow = []) :
    (selectRow stockNo page).result = .ok [] := by
  simp [selectRow, h]

theorem selectRow_fallback (stockNo : String) (page : Page)
    (h : page.firstRow[2]? = some "") :
    (selectRow stockNo page).result = .ok page.secondRow := by
  have hlen : page.firstRow.length > 0 := by
    cases hf : page.firstRow with
    | nil => simp [hf] at h
    | cons a t => simp
  simp [selectRow, hlen, h]

theorem selectRow_short (stockNo : String) (page : Page)
    (hne : page.firstRow ≠ []) (hlt : page.firstRow.length < 3) :
    (selectRow stockNo page).result = .error undefinedLengthError := by
  have hlen : page.firstRow.length > 0 := List.length_pos.mpr hne
  have h2 : page.firstRow[2]? = none := by
    rw [List.getElem?_eq_none_iff]; omega
  simp [selectRow, hlen, h2]

theorem selectRow_cases (stockNo : String) (page : Page) (row : List String)
    (h : (selectRow stockNo page).result = .ok row) :
    row = page.firstRow ∨ row = page.secondRow := by
  by_cases hlen : page.firstRow.length > 0
  · cases h2 : page.firstRow[2]? with
    | none => simp [selectRow, hlen, h2] at h
    | some year =>
      by_cases hy : year.length = 0
      · right; simpa [selectRow, hlen, h2, hy] using h.symm
      · left; simpa [selectRow, hlen, h2, hy] using h.symm
  · left; simpa [selectRow, hlen] using h.symm

/-- C2 (as stated, refuted): a first row whose cash amount is the text `-1` gives a
record whose `divCash` is `-1`, which is not `>= 0`; and a first row with the
amounts `Infinity` and `-Infinity` gives a record whose `divTotal` is `NaN`, which
is not `==` to anything. -/
theorem fetchStockData_negative_cash :
    (∃ r, (fetchStockData ("2330.TW", "A|2330.TW") (.ok negativeCashPage)).result
          = .ok (some r) ∧
      r.divCash = JSNum.fin true (2 ^ 52) (-52) ∧ r.divCash.geZero = false) ∧
    (∃ r, (fetchStockData ("2330.TW", "A|2330.TW") (.ok oppositeInfinitiesPage)).result
          = .ok (some r) ∧
      r.divCash = JSNum.inf false ∧ r.divStock = JSNum.inf true ∧
      r.divTotal = JSNum.nan ∧ r.divTotal.looseEq (r.divCash.add r.divStock) = false ∧
      r.divStock.geZero = false) := by
  refine ⟨⟨buildRecord "2330.TW" "A|2330.TW" "100" negativeCashPage.firstRow, ?_, ?_, ?_⟩,
    ⟨buildRecord "2330.TW" "A|2330.TW" "100" oppositeInfinitiesPage.firstRow,
      ?_, ?_, ?_, ?_, ?_, ?_⟩⟩ <;>
    decide

/-- C2 (amended): every record returned by `fetchStockData` has `divTotal`
computed as the double sum `divCash + divStock`, and neither amount is ever
`NaN`: the dividend-less record has both amounts `0`, and the normal record has
`parseFloat(field) || 0` of fields 3 and 4 of the row used.  The comparison
`divTotal == divCash + divStock` holds exactly when the amounts are not
infinities of opposite signs, and exactly then `divTotal` is not `NaN`.  An amount
is `>= 0` whenever its field does not parse to a negative number; when both
amounts are `>= 0`, the total is `>= 0` and `==` to the sum. -/
theorem fetchStockData_amounts (stockItem : String × String)
    (response : Except JSError Page) (r : DividendRecord)
    (h : (fetchStockData stockItem response).result = .ok (some r)) :
    r.divTotal = r.divCash.add r.divStock ∧
    r.divCash ≠ JSNum.nan ∧ r.divStock ≠ JSNum.nan ∧
    (r.divTotal.looseEq (r.divCash.add r.divStock) = true ↔
      r.divCash.oppositeInfinities r.divStock = false) ∧
    (r.divTotal = JSNum.nan ↔ r.divCash.oppositeInfinities r.divStock = true) ∧
    (r.divCash.geZero = true → r.divStock.geZero = true →
      r.divTotal.looseEq (r.divCash.add r.divStock) = true ∧ r.divTotal.geZero = true) ∧
    ∃ page row, response = .ok page ∧ (selectRow stockItem.1 page).result = .ok row ∧
      (row = [] → r.divCash = JSNum.zero ∧ r.divStock = JSNum.zero) ∧
      (row ≠ [] → r.divCash = (parseFloat row[3]?).orZero ∧
                  r.divStock = (parseFloat row[4]?).orZero) ∧
      ((parseFloat row[3]?).ltZero = false → r.divCash.geZero = true) ∧
      ((parseFloat row[4]?).ltZero = false → r.divStock.geZero = true) := by
  rw [fetchStockData_result] at h
  have h2 : fetchResult stockItem response = some r := by simpa using h
  -- the facts that follow from the shape of the record alone
  have key : ∀ r : DividendRecord, r.divTotal = r.divCash.add r.divStock →
      r.divCash ≠ JSNum.nan → r.divStock ≠ JSNum.nan →
      (r.divTotal.looseEq (r.divCash.add r.divStock) = true ↔
        r.divCash.oppositeInfinities r.divStock = false) ∧
      (r.divTotal = JSNum.nan ↔ r.divCash.oppositeInfinities r.divStock = true) ∧
      (r.divCash.geZero = true → r.divStock.geZero = true →
        r.divTotal.looseEq (r.divCash.add r.divStock) = true ∧ r.divTotal.geZero = true) := by
    intro r ht hc hs
    have hnan : r.divTotal = JSNum.nan ↔ r.divCash.oppositeInfinities r.divStock = true := by
      rw [ht, JSNum.add_eq_nan_iff]
      constructor
      · rintro (h | h | h)
        · exact absurd h hc
        · exact absurd h hs
        · exact h
      · intro h; exact Or.inr (Or.inr h)
    have hloose : r.divTotal.looseEq (r.divCash.add r.divStock) = true ↔
        r.divCash.oppositeInfinities r.divStock = false := by
      rw [← ht]
      constructor
      · intro hl
        cases ho : r.divCash.oppositeInfinities r.divStock with
        | false => rfl
        | true =>
          rw [hnan.mpr ho, JSNum.looseEq_nan_left] at hl
          cases hl
      · intro ho
        apply JSNum.looseEq_self
        intro hn
        rw [hnan.mp hn] at ho
        cases ho
    refine ⟨hloose, hnan, fun hcz hsz => ?_⟩
    have hg : r.divTotal.geZero = true := by rw [ht]; exact JSNum.add_geZero _ _ hcz hsz
    refine ⟨?_, hg⟩
    rw [← ht]
    apply JSNum.looseEq_self
    intro hn
    rw [hn] at hg
    simp [JSNum.geZero] at hg
  cases response with
  | error e => simp [fetchResult] at h2
  | ok page =>
    simp only [fetchResult] at h2
    cases hrow : (selectRow stockItem.1 page).result with
    | error e => simp [hrow] at h2
    | ok row =>
      rw [hrow] at h2
      by_cases hr : row = []
      · by_cases hn : noDataFound page = true
        · simp only [hr, hn, if_true, Option.some.injEq] at h2
          subst h2
          have ht : (emptyRecord stockItem.1 stockItem.2 page.price).divTotal
              = (emptyRecord stockItem.1 stockItem.2 page.price).divCash.add
                (emptyRecord stockItem.1 stockItem.2 page.price).divStock := by
            show JSNum.zero = JSNum.zero.add JSNum.zero
            decide
          have hc : (emptyRecord stockItem.1 stockItem.2 page.price).divCash ≠ JSNum.nan := by
            show JSNum.zero ≠ JSNum.nan
            decide
          have hs : (emptyRecord stockItem.1 stockItem.2 page.price).divStock ≠ JSNum.nan := by
            show JSNum.zero ≠ JSNum.nan
            decide
          obtain ⟨k1, k2, k3⟩ := key _ ht hc hs
          refine ⟨ht, hc, hs, k1, k2, k3, page, row, rfl, hrow, ?_, ?_, ?_, ?_⟩
          · intro _; exact ⟨rfl, rfl⟩
          · intro hne; exact absurd hr hne
          · intro _; show JSNum.zero.geZero = true; decide
          · intro _; show JSNum.zero.geZero = true; decide
        · simp [hr, hn] at h2
      · simp only [hr, if_false, Option.some.injEq] at h2
        subst h2
        have hc := JSNum.orZero_ne_nan (parseFloat row[3]?)
        have hs := JSNum.orZero_ne_nan (parseFloat row[4]?)
        obtain ⟨k1, k2, k3⟩ :=
          key (buildRecord stockItem.1 stockItem.2 page.price row) rfl hc hs
        refine ⟨rfl, hc, hs, k1, k2, k3, page, row, rfl, hrow, ?_, ?_, ?_, ?_⟩
        · intro he; exact absurd he hr
        · intro _; exact ⟨rfl, rfl⟩
        · intro hcz; exact JSNum.orZero_geZero _ hcz
        · intro hsz; exact JSNum.orZero_geZero _ hsz

/-- Witness of `fetchStockData_amounts`, on a page whose second row is used: the
amounts `2` and `0.5` give the total `2.5`. -/
theorem fetchStockData_amounts_witness :
    (fetchStockData ("2330.TW", "A|2330.TW") (.ok fallbackPage)).result
        = .ok (some (buildRecord "2330.TW" "A|2330.TW" "100" fallbackPage.secondRow)) ∧
    (buildRecord "2330.TW" "A|2330.TW" "100" fallbackPage.secondRow).divTotal
        = JSNum.fin false (5 * 2 ^ 50) (-51) :=
  ⟨by decide,
   ((fetchStockData_amounts ("2330.TW", "A|2330.TW") (.ok fallbackPage)
      (buildRecord "2330.TW" "A|2330.TW" "100" fallbackPage.secondRow) (by decide)).1).trans
      (by decide)⟩

/-! ## fetchStockData: the fallback row, the no-data page, the boundary -/

/-- C6 (as stated, refuted): the year text of the first row is a blank, so it is
empty once trimmed, and the year of the second row is `2024`; the texts are not
trimmed by the script, the first row is used and `divYear` is the blank. -/
theorem fetchStockData_blank_year_uses_first_row :
    (blankYearPage.firstRow[2]?).map (fun t => String.mk (jsTrim t.toList)) = some "" ∧
    blankYearPage.secondRow[2]? = some "2024" ∧
    ∃ r, (fetchStockData ("2330.TW", "A|2330.TW") (.ok blankYearPage)).result
          = .ok (some r) ∧
      r = buildRecord "2330.TW" "A|2330.TW" "100" blankYearPage.firstRow ∧
      r.divYear = " " ∧ r.divYear ≠ "2024" := by
  refine ⟨by decide, by decide,
    buildRecord "2330.TW" "A|2330.TW" "100" blankYearPage.firstRow, ?_, rfl, ?_, ?_⟩ <;>
    decide

/-- C6 (amended): when element 2 of the first row, as returned by `.text()`
(not trimmed), is the empty string and element 2 of the second row is a string
`Y` (non-empty in particular), `fetchStockData` returns the record built from the
second row, and its `divYear` is `Y`. -/
theorem fetchStockData_fallback_year (stockItem : String × String) (page : Page)
    (Y : String) (h1 : page.firstRow[2]? = some "") (h2 : page.secondRow[2]? = some Y) :
    ∃ r, (fetchStockData stockItem (.ok page)).result = .ok (some r) ∧
      r = buildRecord stockItem.1 stockItem.2 page.price page.secondRow ∧
      r.divYear = Y := by
  have hne : page.secondRow ≠ [] := by
    intro hnil
    simp [hnil] at h2
  refine ⟨buildRecord stockItem.1 stockItem.2 page.price page.secondRow, ?_, rfl, ?_⟩
  · rw [fetchStockData_result]
    simp [fetchResult, selectRow_fallback stockItem.1 page h1, hne]
  · simp [buildRecord, h2]

/-- Witness of `fetchStockData_fallback_year`: the year `2024` of the second row. -/
theorem fetchStockData_fallback_year_witness :
    ∃ r, (fetchStockData ("2330.TW", "A|2330.TW") (.ok fallbackPage)).result
          = .ok (some r) ∧
      r = buildRecord "2330.TW" "A|2330.TW" fallbackPage.price fallbackPage.secondRow ∧
      r.divYear = "2024" :=
  fetchStockData_fallback_year ("2330.TW", "A|2330.TW") fallbackPage "2024"
    (by decide) (by decide)

/-- C7: when no field is extracted (the first row is empty, or its year is empty
and the second row is empty), then with the no-data notice among the texts of
the section, `fetchStockData` returns the record with `stockNo` and `tickers` of the
entry, the price (or `N/A`), empty year and dates and zero amounts; without the
notice it returns `null`. -/
theorem fetchStockData_no_fields (stockItem : String × String) (page : Page)
    (h : page.firstRow = [] ∨ (page.firstRow[2]? = some "" ∧ page.secondRow = [])) :
    ("查無資料" ∈ page.sectionDivs →
      ∃ r, (fetchStockData stockItem (.ok page)).result = .ok (some r) ∧
        r.stockNo = stockItem.1 ∧ r.tickers = stockItem.2 ∧
        r.price = (if page.price = "" then "N/A" else page.price) ∧ r.price ≠ "" ∧
        r.divYear = "" ∧ r.divDateCash = "" ∧ r.divDateCashPay = "" ∧
        r.divDateStock = "" ∧ r.divDateStockPay = "" ∧
        r.divCash = JSNum.zero ∧ r.divStock = JSNum.zero ∧ r.divTotal = JSNum.zero) ∧
    ("查無資料" ∉ page.sectionDivs →
      (fetchStockData stockItem (.ok page)).result = .ok none) := by
  have hrow : (selectRow stockItem.1 page).result = .ok [] := by
    rcases h with h | ⟨h, h2⟩
    · exact selectRow_first_empty _ _ h
    · rw [selectRow_fallback _ _ h, h2]
  constructor
  · intro hin
    have hn : noDataFound page = true := (noDataFound_iff page).mpr hin
    refine ⟨emptyRecord stockItem.1 stockItem.2 page.price, ?_, rfl, rfl, rfl, ?_,
      rfl, rfl, rfl, rfl, rfl, rfl, rfl, rfl⟩
    · rw [fetchStockData_result]
      simp [fetchResult, hrow, hn]
    · by_cases hp : page.price = ""
      · simp [emptyRecord, priceOrNA, hp]
      · simp [emptyRecord, priceOrNA, hp]
  · intro hnot
    have hn : noDataFound page = false := by
      cases hb : noDataFound page with
      | false => rfl
      | true => exact absurd ((noDataFound_iff page).mp hb) hnot
    rw [fetchStockData_result]
    simp [fetchResult, hrow, hn]

/-- Witness of `fetchStockData_no_fields`: a page with no rows and the notice. -/
theorem fetchStockData_no_fields_witness :
    ∃ r, (fetchStockData ("2330.TW", "A|2330.TW") (.ok noDataPage)).result = .ok (some r) ∧
        r.stockNo = "2330.TW" ∧ r.tickers = "A|2330.TW" ∧
        r.price = (if noDataPage.price = "" then "N/A" else noDataPage.price) ∧
        r.price ≠ "" ∧
        r.divYear = "" ∧ r.divDateCash = "" ∧ r.divDateCashPay = "" ∧
        r.divDateStock = "" ∧ r.divDateStockPay = "" ∧
        r.divCash = JSNum.zero ∧ r.divStock = JSNum.zero ∧ r.divTotal = JSNum.zero :=
  (fetchStockData_no_fields ("2330.TW", "A|2330.TW") noDataPage (Or.inl rfl)).1 (by decide)

/-- C8: whatever the entry and the outcome of the page request, `fetchStockData`
completes normally (with a record or `null`) and does not throw; when the first
row is non-empty and shorter than 3 elements, the `try` block throws a
`TypeError` and the result is `null`; a failed request gives `null` too. -/
theorem fetchStockData_never_throws (stockItem : String × String)
    (response : Except JSError Page) :
    (∃ r, (fetchStockData stockItem response).result = .ok r) ∧
    (∀ e, response = .error e → (fetchStockData stockItem response).result = .ok none) ∧
    (∀ page, response = .ok page → page.firstRow ≠ [] → page.firstRow.length < 3 →
      (fetchStockDataTry stockItem.1 stockItem.2 response).result
          = .error undefinedLengthError ∧
      (fetchStockData stockItem response).result = .ok none) := by
  refine ⟨⟨_, fetchStockData_result stockItem response⟩, ?_, ?_⟩
  · intro e he
    subst he
    rw [fetchStockData_result]; rfl
  · intro page hp hne hlt
    subst hp
    have hs := selectRow_short stockItem.1 page hne hlt
    constructor
    · simp [fetchStockDataTry, hs]
    · rw [fetchStockData_result]
      simp [fetchResult, hs]

/-- Witness of `fetchStockData_never_throws`: a first row of two fields. -/
theorem fetchStockData_never_throws_witness :
    (fetchStockDataTry "2330.TW" "A|2330.TW" (.ok shortRowPage)).result
        = .error undefinedLengthError ∧
    (fetchStockData ("2330.TW", "A|2330.TW") (.ok shortRowPage)).result = .ok none :=
  (fetchStockData_never_throws ("2330.TW", "A|2330.TW") (.ok shortRowPage)).2.2
    shortRowPage rfl (by decide) (by decide)

/-! ## withRetry: unfolding and counting -/

section Retry

variable {α : Type}

theorem withRetryLoop_ok (fn : Nat → Trace α) (fnName : String) (remaining attempt : Nat)
    (v : α) (h : (fn attempt).result = .ok v) :
    withRetryLoop fn fnName (remaining + 1) attempt =
      ⟨RetryEvent.invoke fnName attempt :: (fn attempt).events.map RetryEvent.fromOperation,
       .ok (some v)⟩ := by
  simp only [withRetryLoop, h]

theorem withRetryLoop_error_retry (fn : Nat → Trace α) (fnName : String)
    (remaining attempt : Nat) (err : JSError) (h : (fn attempt).result = .error err)
    (hlt : attempt < MAX_RETRIES) :
    withRetryLoop fn fnName (remaining + 1) attempt =
      ⟨(RetryEvent.invoke fnName attempt :: (fn attempt).events.map RetryEvent.fromOperation ++
          [RetryEvent.own (Event.log Level.error
              (Message.retryAttemptFailed attempt MAX_RETRIES fnName err.message)),
           RetryEvent.own (Event.dir err)]) ++
          [RetryEvent.own (Event.log Level.log (Message.retryWait (RETRY_DELAY_MS / 1000))),
           RetryEvent.own (Event.sleep RETRY_DELAY_MS)] ++
          (withRetryLoop fn fnName remaining (attempt + 1)).events,
       (withRetryLoop fn fnName remaining (attempt + 1)).result⟩ := by
  simp only [withRetryLoop, h, hlt, if_true]

theorem withRetryLoop_error_last (fn : Nat → Trace α) (fnName : String)
    (remaining attempt : Nat) (err : JSError) (h : (fn attempt).result = .error err)
    (hge : ¬ attempt < MAX_RETRIES) :
    withRetryLoop fn fnName (remaining + 1) attempt =
      ⟨(RetryEvent.invoke fnName attempt :: (fn attempt).events.map RetryEvent.fromOperation ++
          [RetryEvent.own (Event.log Level.error
              (Message.retryAttemptFailed attempt MAX_RETRIES fnName err.message)),
           RetryEvent.own (Event.dir err)]) ++
          [RetryEvent.own (Event.log Level.error (Message.retryGiveUp MAX_RETRIES fnName))],
       .error err⟩ := by
  simp only [withRetryLoop, h, hge, if_false]

theorem countInvocations_fromOperation (evs : List Event) :
    countInvocations (evs.map RetryEvent.fromOperation) = 0 := by
  induction evs with
  | nil => rfl
  | cons e t ih =>
    simp only [countInvocations, List.map_cons, List.countP_cons] at ih ⊢
    simp [ih, RetryEvent.isInvoke]

theorem countFailureEntries_fromOperation (evs : List Event) :
    countFailureEntries (evs.map RetryEvent.fromOperation) = 0 := by
  induction evs with
  | nil => rfl
  | cons e t ih =>
    simp only [countFailureEntries, List.map_cons, List.countP_cons] at ih ⊢
    simp [ih, RetryEvent.isFailureEntry]

theorem delays_fromOperation (evs : List Event) :
    delays (evs.map RetryEvent.fromOperation) = [] := by
  induction evs with
  | nil => rfl
  | cons e t ih =>
    simp only [delays, List.map_cons] at ih ⊢
    simp [List.filterMap_cons, RetryEvent.delayOf, ih]

theorem countInvocations_append (a b : List RetryEvent) :
    countInvocations (a ++ b) = countInvocations a + countInvocations b := by
  simp [countInvocations, List.countP_append]

theorem countFailureEntries_append (a b : List RetryEvent) :
    countFailureEntries (a ++ b) = countFailureEntries a + countFailureEntries b := by
  simp [countFailureEntries, List.countP_append]

theorem countWarnings_append (a b : List RetryEvent) :
    countWarnings (a ++ b) = countWarnings a + countWarnings b := by
  simp [countWarnings, List.countP_append]

theorem delays_append (a b : List RetryEvent) : delays (a ++ b) = delays a ++ delays b := by
  simp [delays, List.filterMap_append]

/-- The events of a failed attempt that is followed by another one. -/
theorem failed_block_counts (fnName : String) (attempt : Nat) (evs : List Event)
    (err : JSError) :
    let block := (RetryEvent.invoke fnName attempt :: evs.map RetryEvent.fromOperation ++
          [RetryEvent.own (Event.log Level.error
              (Message.retryAttemptFailed attempt MAX_RETRIES fnName err.message)),
           RetryEvent.own (Event.dir err)]) ++
          [RetryEvent.own (Event.log Level.log (Message.retryWait (RETRY_DELAY_MS / 1000))),
           RetryEvent.own (Event.sleep RETRY_DELAY_MS)]
    countInvocations block = 1 ∧ countFailureEntries block = 1 ∧
      delays block = [RETRY_DELAY_MS] ∧
      countWarnings block = countWarnings (evs.map RetryEvent.fromOperation) := by
  intro block
  have hI := countInvocations_fromOperation evs
  have hF := countFailureEntries_fromOperation evs
  have hD := delays_fromOperation evs
  refine ⟨?_, ?_, ?_, ?_⟩
  · simp only [block, List.cons_append, countInvocations_append]
    simp only [countInvocations, List.countP_cons, List.countP_append] at hI ⊢
    simp [hI, RetryEvent.isInvoke]
  · simp only [block, List.cons_append, countFailureEntries_append]
    simp only [countFailureEntries, List.countP_cons, List.countP_append] at hF ⊢
    simp [hF, RetryEvent.isFailureEntry]
  · simp only [block, List.cons_append, delays_append]
    simp only [delays, List.filterMap_cons, List.filterMap_append] at hD ⊢
    simp [hD, RetryEvent.delayOf]
  · simp only [block, List.cons_append, countWarnings_append]
    simp only [countWarnings, List.countP_cons, List.countP_append]
    simp [RetryEvent.isWarning]

/-- After `k` failing attempts, a success in attempt `attempt + k`. -/
theorem withRetryLoop_success (fn : Nat → Trace α) (fnName : String) (v : α) :
    ∀ (k remaining attempt : Nat), k < remaining → attempt + k ≤ MAX_RETRIES →
      (∀ i, attempt ≤ i → i < attempt + k → ∃ e, (fn i).result = .error e) →
      (fn (attempt + k)).result = .ok v →
      (withRetryLoop fn fnName remaining attempt).result = .ok (some v) ∧
      countInvocations (withRetryLoop fn fnName remaining attempt).events = k + 1 ∧
      countFailureEntries (withRetryLoop fn fnName remaining attempt).events = k ∧
      delays (withRetryLoop fn fnName remaining attempt).events
        = List.replicate k RETRY_DELAY_MS ∧
      ∃ pre, (withRetryLoop fn fnName remaining attempt).events =
        pre ++ RetryEvent.invoke fnName (attempt + k) ::
          (fn (attempt + k)).events.map RetryEvent.fromOperation := by
  intro k
  induction k with
  | zero =>
    intro remaining attempt hrem _ _ hok
    obtain ⟨r, rfl⟩ : ∃ r, remaining = r + 1 := ⟨remaining - 1, by omega⟩
    simp only [Nat.add_zero] at hok ⊢
    rw [withRetryLoop_ok fn fnName r attempt v hok]
    refine ⟨rfl, ?_, ?_, ?_, [], rfl⟩
    · have h := countInvocations_fromOperation (fn attempt).events
      simp only [countInvocations, List.countP_cons] at h ⊢
      simp [h, RetryEvent.isInvoke]
    · have h := countFailureEntries_fromOperation (fn attempt).events
      simp only [countFailureEntries, List.countP_cons] at h ⊢
      simp [h, RetryEvent.isFailureEntry]
    · have h := delays_fromOperation (fn attempt).events
      simp only [delays, List.filterMap_cons] at h ⊢
      simp [h, RetryEvent.delayOf]
  | succ k ih =>
    intro remaining attempt hrem hle hfail hok
    obtain ⟨r, rfl⟩ : ∃ r, remaining = r + 1 := ⟨remaining - 1, by omega⟩
    obtain ⟨err, herr⟩ := hfail attempt (le_refl _) (by omega)
    have hlt : attempt < MAX_RETRIES := by omega
    have hidx : attempt + 1 + k = attempt + (k + 1) := by omega
    have hrec := ih r (attempt + 1) (by omega) (by omega)
      (fun i h1 h2 => hfail i (by omega) (by omega)) (by rw [hidx]; exact hok)
    obtain ⟨hres, hinv, hfe, hdel, pre, hpre⟩ := hrec
    obtain ⟨bI, bF, bD, -⟩ := failed_block_counts fnName attempt (fn attempt).events err
    rw [withRetryLoop_error_retry fn fnName r attempt err herr hlt]
    refine ⟨hres, ?_, ?_, ?_, ?_⟩
    · show countInvocations (_ ++ _) = _
      rw [countInvocations_append, hinv, bI]; omega
    · show countFailureEntries (_ ++ _) = _
      rw [countFailureEntries_append, hfe, bF]; omega
    · show delays (_ ++ _) = _
      rw [delays_append, hdel, bD]; rfl
    · rw [hidx] at hpre
      show ∃ pre2, _ ++ (withRetryLoop fn fnName r (attempt + 1)).events = pre2 ++ _
      rw [hpre]
      exact ⟨_, (List.append_assoc _ _ _).symm⟩

/-- Warnings of a successful run, when the failing attempts log none. -/
theorem withRetryLoop_warnings (fn : Nat → Trace α) (fnName : String) (v : α) :
    ∀ (k remaining attempt : Nat), k < remaining → attempt + k ≤ MAX_RETRIES →
      (∀ i, attempt ≤ i → i < attempt + k →
        (∃ e, (fn i).result = .error e) ∧
        countWarnings ((fn i).events.map RetryEvent.fromOperation) = 0) →
      (fn (attempt + k)).result = .ok v →
      countWarnings (withRetryLoop fn fnName remaining attempt).events =
        countWarnings ((fn (attempt + k)).events.map RetryEvent.fromOperation) := by
  intro k
  induction k with
  | zero =>
    intro remaining attempt hrem _ _ hok
    obtain ⟨r, rfl⟩ : ∃ r, remaining = r + 1 := ⟨remaining - 1, by omega⟩
    simp only [Nat.add_zero] at hok ⊢
    rw [withRetryLoop_ok fn fnName r attempt v hok]
    simp only [countWarnings, List.countP_cons]
    simp [RetryEvent.isWarning]
  | succ k ih =>
    intro remaining attempt hrem hle hfail hok
    obtain ⟨r, rfl⟩ : ∃ r, remaining = r + 1 := ⟨remaining - 1, by omega⟩
    obtain ⟨⟨err, herr⟩, hw⟩ := hfail attempt (le_refl _) (by omega)
    have hlt : attempt < MAX_RETRIES := by omega
    have hidx : attempt + 1 + k = attempt + (k + 1) := by omega
    have hrec := ih r (attempt + 1) (by omega) (by omega)
      (fun i h1 h2 => hfail i (by omega) (by omega)) (by rw [hidx]; exact hok)
    obtain ⟨-, -, -, bW⟩ := failed_block_counts fnName attempt (fn attempt).events err
    rw [withRetryLoop_error_retry fn fnName r attempt err herr hlt]
    show countWarnings (_ ++ _) = _
    rw [countWarnings_append, hrec, bW, hw, hidx]; omega

/-- Every attempt from `attempt` to the last one fails. -/
theorem withRetryLoop_exhausted (fn : Nat → Trace α) (fnName : String)
    (errs : Nat → JSError) :
    ∀ (remaining attempt : Nat), attempt + remaining = MAX_RETRIES →
      (∀ i, attempt ≤ i → i ≤ MAX_RETRIES → (fn i).result = .error (errs i)) →
      (withRetryLoop fn fnName (remaining + 1) attempt).result
        = .error (errs MAX_RETRIES) ∧
      countInvocations (withRetryLoop fn fnName (remaining + 1) attempt).events
        = remaining + 1 ∧
      countFailureEntries (withRetryLoop fn fnName (remaining + 1) attempt).events
        = remaining + 1 ∧
      delays (withRetryLoop fn fnName (remaining + 1) attempt).events
        = List.replicate remaining RETRY_DELAY_MS ∧
      ∃ pre, (withRetryLoop fn fnName (remaining + 1) attempt).events =
        pre ++ RetryEvent.invoke fnName MAX_RETRIES ::
          ((fn MAX_RETRIES).events.map RetryEvent.fromOperation ++
            [RetryEvent.own (Event.log Level.error
                (Message.retryAttemptFailed MAX_RETRIES MAX_RETRIES fnName
                  (errs MAX_RETRIES).message)),
             RetryEvent.own (Event.dir (errs MAX_RETRIES)),
             RetryEvent.own (Event.log Level.error
                (Message.retryGiveUp MAX_RETRIES fnName))]) := by
  intro remaining
  induction remaining with
  | zero =>
    intro attempt hsum hfail
    have hat : attempt = MAX_RETRIES := by omega
    subst hat
    have herr := hfail MAX_RETRIES (le_refl _) (le_refl _)
    rw [withRetryLoop_error_last fn fnName 0 MAX_RETRIES _ herr (lt_irrefl _)]
    have hI := countInvocations_fromOperation (fn MAX_RETRIES).events
    have hF := countFailureEntries_fromOperation (fn MAX_RETRIES).events
    have hD := delays_fromOperation (fn MAX_RETRIES).events
    refine ⟨rfl, ?_, ?_, ?_, [], ?_⟩
    · simp only [List.cons_append, countInvocations, List.countP_cons,
        List.countP_append] at hI ⊢
      simp [hI, RetryEvent.isInvoke]
    · simp only [List.cons_append, countFailureEntries, List.countP_cons,
        List.countP_append] at hF ⊢
      simp [hF, RetryEvent.isFailureEntry]
    · simp only [List.cons_append, delays, List.filterMap_cons,
        List.filterMap_append] at hD ⊢
      simp [hD, RetryEvent.delayOf]
    · simp
  | succ n ih =>
    intro attempt hsum hfail
    have hlt : attempt < MAX_RETRIES := by omega
    have herr := hfail attempt (le_refl _) (le_of_lt hlt)
    have hrec := ih (attempt + 1) (by omega) (fun i h1 h2 => hfail i (by omega) h2)
    obtain ⟨hres, hinv, hfe, hdel, pre, hpre⟩ := hrec
    obtain ⟨bI, bF, bD, -⟩ :=
      failed_block_counts fnName attempt (fn attempt).events (errs attempt)
    rw [withRetryLoop_error_retry fn fnName (n + 1) attempt _ herr hlt]
    refine ⟨hres, ?_, ?_, ?_, ?_⟩
    · show countInvocations (_ ++ _) = _
      rw [countInvocations_append, hinv, bI]; omega
    · show countFailureEntries (_ ++ _) = _
      rw [countFailureEntries_append, hfe, bF]; omega
    · show delays (_ ++ _) = _
      rw [delays_append, hdel, bD]; rfl
    · show ∃ pre2, _ ++ (withRetryLoop fn fnName (n + 1) (attempt + 1)).events = pre2 ++ _
      rw [hpre]
      exact ⟨_, (List.append_assoc _ _ _).symm⟩

/-- A value returned by the loop was returned by the operation in some attempt. -/
theorem withRetryLoop_value (fn : Nat → Trace α) (fnName : String) (v : Option α) :
    ∀ (remaining attempt : Nat),
      (withRetryLoop fn fnName remaining attempt).result = .ok v →
      v = none ∨ ∃ i w, v = some w ∧ (fn i).result = .ok w := by
  intro remaining
  induction remaining with
  | zero =>
    intro attempt h
    left
    simp only [withRetryLoop] at h
    exact (Except.ok.inj h).symm
  | succ n ih =>
    intro attempt h
    cases hres : (fn attempt).result with
    | ok w =>
      rw [withRetryLoop_ok fn fnName n attempt w hres] at h
      right
      exact ⟨attempt, w, (Except.ok.inj h).symm, hres⟩
    | error err =>
      by_cases hlt : attempt < MAX_RETRIES
      · rw [withRetryLoop_error_retry fn fnName n attempt err hres hlt] at h
        exact ih (attempt + 1) h
      · rw [withRetryLoop_error_last fn fnName n attempt err hres hlt] at h
        cases h

theorem delays_prefix_of_tail_nil (pre tail : List RetryEvent) (ds : List Nat)
    (h : delays (pre ++ tail) = ds) (ht : delays tail = []) : delays pre = ds := by
  rw [delays_append, ht, List.append_nil] at h
  exact h

theorem delays_success_tail (fnName : String) (attempt : Nat) (evs : List Event) :
    delays (RetryEvent.invoke fnName attempt :: evs.map RetryEvent.fromOperation) = [] := by
  have h := delays_fromOperation evs
  simp only [delays, List.filterMap_cons] at h ⊢
  simp [h, RetryEvent.delayOf]

theorem delays_exhausted_tail (fnName : String) (attempt : Nat) (evs : List Event)
    (m1 m2 : Message) (err : JSError) :
    delays (RetryEvent.invoke fnName attempt ::
      (evs.map RetryEvent.fromOperation ++
        [RetryEvent.own (Event.log Level.error m1), RetryEvent.own (Event.dir err),
         RetryEvent.own (Event.log Level.error m2)])) = [] := by
  have h := delays_fromOperation evs
  simp only [delays, List.filterMap_cons, List.filterMap_append] at h ⊢
  simp [h, RetryEvent.delayOf]

/-- C4 (as stated, refuted): for an operation that fails in every attempt,
`withRetry` rejects with the error of the fifth attempt itself, whose name is
`Error`; it is not an error of kind `ExhaustedRetries`. -/
theorem withRetry_rejects_with_plain_error :
    (withRetry
        (fun i => (⟨[], .error ⟨"Error", if i = 5 then "last" else "earlier"⟩⟩ : Trace Unit))
        "op").result = .error ⟨"Error", "last"⟩ ∧
    ¬ ∃ e, (withRetry
        (fun i => (⟨[], .error ⟨"Error", if i = 5 then "last" else "earlier"⟩⟩ : Trace Unit))
        "op").result = .error e ∧ IsExhaustedRetries e := by
  have h : (withRetry
        (fun i => (⟨[], .error ⟨"Error", if i = 5 then "last" else "earlier"⟩⟩ : Trace Unit))
        "op").result = .error ⟨"Error", "last"⟩ := by decide
  refine ⟨h, ?_⟩
  rintro ⟨e, he, hex⟩
  rw [h] at he
  have : e = ⟨"Error", "last"⟩ := (Except.error.inj he).symm
  subst this
  revert hex
  unfold IsExhaustedRetries
  decide

/-- C4 (amended): for an operation that fails in every attempt, `withRetry` calls
it exactly 5 times, logs 5 failure entries, sleeps exactly 4 times 30000 ms, all
of them before the fifth call, and then rejects with the error of the fifth
attempt itself (rethrown, not wrapped). -/
theorem withRetry_exhausted (fn : Nat → Trace α) (fnName : String) (errs : Nat → JSError)
    (hfail : ∀ i, 1 ≤ i → i ≤ 5 → (fn i).result = .error (errs i)) :
    (withRetry fn fnName).result = .error (errs 5) ∧
    countInvocations (withRetry fn fnName).events = 5 ∧
    countFailureEntries (withRetry fn fnName).events = 5 ∧
    delays (withRetry fn fnName).events = [30000, 30000, 30000, 30000] ∧
    ∃ pre, (withRetry fn fnName).events =
        pre ++ RetryEvent.invoke fnName 5 ::
          ((fn 5).events.map RetryEvent.fromOperation ++
            [RetryEvent.own (Event.log Level.error
                (Message.retryAttemptFailed 5 5 fnName (errs 5).message)),
             RetryEvent.own (Event.dir (errs 5)),
             RetryEvent.own (Event.log Level.error (Message.retryGiveUp 5 fnName))]) ∧
      delays pre = [30000, 30000, 30000, 30000] := by
  obtain ⟨hres, hinv, hfe, hdel, pre, hpre⟩ :=
    withRetryLoop_exhausted fn fnName errs 4 1 rfl hfail
  refine ⟨hres, hinv, hfe, hdel, pre, hpre, ?_⟩
  have hd : delays (pre ++ _) = _ := hpre ▸ hdel
  exact delays_prefix_of_tail_nil _ _ _ hd (delays_exhausted_tail _ _ _ _ _ _)

/-- Witness of `withRetry_exhausted`: an operation that always throws. -/
theorem withRetry_exhausted_witness :
    (withRetry (fun _ => (⟨[], .error boom⟩ : Trace Unit)) "op").result = .error boom ∧
    countInvocations (withRetry (fun _ => (⟨[], .error boom⟩ : Trace Unit)) "op").events = 5 ∧
    delays (withRetry (fun _ => (⟨[], .error boom⟩ : Trace Unit)) "op").events
      = [30000, 30000, 30000, 30000] :=
  have h := withRetry_exhausted (fun _ => (⟨[], .error boom⟩ : Trace Unit)) "op"
    (fun _ => boom) (fun _ _ _ => rfl)
  ⟨h.1, h.2.1, h.2.2.2.1⟩

/-- C5: when the first `k <= 4` attempts fail and attempt `k + 1` returns `v`,
`withRetry` returns `v` after exactly `k + 1` calls, with exactly `k` failure
entries and exactly `k` sleeps of 30000 ms, all before the successful call:
after that call the run holds only the effects of the operation itself. -/
theorem withRetry_success_after_failures (fn : Nat → Trace α) (fnName : String)
    (k : Nat) (v : α) (hk : k ≤ 4)
    (hfail : ∀ i, 1 ≤ i → i ≤ k → ∃ e, (fn i).result = .error e)
    (hok : (fn (k + 1)).result = .ok v) :
    (withRetry fn fnName).result = .ok (some v) ∧
    countInvocations (withRetry fn fnName).events = k + 1 ∧
    countFailureEntries (withRetry fn fnName).events = k ∧
    delays (withRetry fn fnName).events = List.replicate k 30000 ∧
    ∃ pre, (withRetry fn fnName).events =
        pre ++ RetryEvent.invoke fnName (k + 1) ::
          (fn (k + 1)).events.map RetryEvent.fromOperation ∧
      delays pre = List.replicate k 30000 := by
  have hidx : 1 + k = k + 1 := by omega
  obtain ⟨hres, hinv, hfe, hdel, pre, hpre⟩ :=
    withRetryLoop_success fn fnName v k MAX_RETRIES 1 (by simp [MAX_RETRIES]; omega)
      (by simp [MAX_RETRIES]; omega) (fun i h1 h2 => hfail i h1 (by omega))
      (by rw [hidx]; exact hok)
  rw [hidx] at hpre
  refine ⟨hres, hinv, hfe, hdel, pre, hpre, ?_⟩
  have hd : delays (pre ++ _) = _ := hpre ▸ hdel
  exact delays_prefix_of_tail_nil _ _ _ hd (delays_success_tail _ _ _)

/-- Witness of `withRetry_success_after_failures`: four failures, then `7`. -/
theorem withRetry_success_after_failures_witness :
    (withRetry (fun i => (⟨[], if i ≤ 4 then .error boom else .ok 7⟩ : Trace Nat))
        "op").result = .ok (some 7) ∧
    countFailureEntries
      (withRetry (fun i => (⟨[], if i ≤ 4 then .error boom else .ok 7⟩ : Trace Nat))
        "op").events = 4 ∧
    delays (withRetry (fun i => (⟨[], if i ≤ 4 then .error boom else .ok 7⟩ : Trace Nat))
        "op").events = [30000, 30000, 30000, 30000] :=
  have h := withRetry_success_after_failures
    (fun i => (⟨[], if i ≤ 4 then .error boom else .ok 7⟩ : Trace Nat)) "op" 4 7
    (le_refl 4) (fun i _ h2 => ⟨boom, by simp [h2]⟩) (by simp)
  ⟨h.1, h.2.2.1, h.2.2.2.1⟩

end Retry

/-! ## getStockList -/

theorem jsSplit_head (sep : Char) (s : List Char) :
    (jsSplit sep s)[0]? = some (s.takeWhile (fun c => c != sep)) := by
  induction s with
  | nil => simp [jsSplit]
  | cons c cs ih =>
    by_cases hc : c = sep
    · simp [jsSplit, hc]
    · cases hsplit : jsSplit sep cs with
      | nil => simp [hsplit] at ih
      | cons h t =>
        simp only [hsplit, List.getElem?_cons_zero, Option.some.injEq] at ih
        simp [jsSplit, hc, hsplit, ih]

theorem jsSplit_second (sep : Char) (s : List Char) (h : sep ∈ s) :
    (jsSplit sep s)[1]? = some (secondField sep s) := by
  induction s with
  | nil => simp at h
  | cons c cs ih =>
    by_cases hc : c = sep
    · have := jsSplit_head sep cs
      simp [jsSplit, hc, secondField, afterFirst, this]
    · have hmem : sep ∈ cs := by
        rcases List.mem_cons.mp h with h1 | h1
        · exact absurd h1.symm hc
        · exact h1
      have ih2 := ih hmem
      cases hsplit : jsSplit sep cs with
      | nil => simp [hsplit] at ih2
      | cons a t =>
        rw [hsplit] at ih2
        simp only [List.getElem?_cons_succ] at ih2
        simp only [jsSplit, hc, if_false, hsplit, List.getElem?_cons_succ, ih2]
        simp [secondField, afterFirst, hc]

/-- One step of the loop of `getStockList` adds the pair of the item, or one
warning. -/
theorem stockListStep_eq (acc : List StockItem × List Event) (item : Item) :
    stockListStep acc item =
      (acc.1 ++ (tickerPair item).toList,
       acc.2 ++ (if (tickerPair item).isNone
                 then [Event.log Level.warn (Message.invalidItem item.shown)] else [])) := by
  cases item with
  | str s =>
    by_cases hbar : '|' ∈ s.data
    · have h2 : (jsSplit '|' s.data)[1]? = some (secondField '|' s.data) :=
        jsSplit_second '|' s.data hbar
      simp [stockListStep, tickerPair, hbar, h2]
    · simp [stockListStep, tickerPair, hbar, Item.shown]
  | other t => simp [stockListStep, tickerPair, Item.shown]

theorem stockList_foldl (data : List Item) (acc : List StockItem × List Event) :
    data.foldl stockListStep acc =
      (acc.1 ++ data.filterMap tickerPair,
       acc.2 ++ (data.filter (fun it => (tickerPair it).isNone)).map
          (fun it => Event.log Level.warn (Message.invalidItem it.shown))) := by
  induction data generalizing acc with
  | nil => simp
  | cons item rest ih =>
    rw [List.foldl_cons, ih, stockListStep_eq]
    cases hp : tickerPair item with
    | none => simp [hp, List.filterMap_cons]
    | some pr => simp [hp, List.filterMap_cons]

theorem countWarnings_warn_map (l : List Item) :
    countWarnings ((l.map (fun it => Event.log Level.warn (Message.invalidItem it.shown))).map
      RetryEvent.fromOperation) = l.length := by
  induction l with
  | nil => rfl
  | cons a t ih =>
    simp only [countWarnings, List.map_cons, List.countP_cons, List.length_cons] at ih ⊢
    simp [ih, RetryEvent.isWarning]

theorem getStockListOnce_ok (data : List Item) :
    (getStockListOnce (.ok data)).result = .ok (data.filterMap tickerPair) ∧
    countWarnings ((getStockListOnce (.ok data)).events.map RetryEvent.fromOperation)
      = data.countP (fun it => (tickerPair it).isNone) := by
  constructor
  · simp [getStockListOnce, stockList_foldl]
  · simp only [getStockListOnce, stockList_foldl, List.nil_append, List.map_cons,
      List.map_append, List.cons_append, List.map_nil]
    rw [show ∀ (x : RetryEvent) (l : List RetryEvent), x :: l = [x] ++ l from fun _ _ => rfl,
      countWarnings_append, countWarnings_append, countWarnings_warn_map, List.countP_eq_length_filter]
    simp [countWarnings, RetryEvent.isWarning]

theorem getStockListOnce_error (e : JSError) :
    (getStockListOnce (.error e)).result = .error e ∧
    countWarnings ((getStockListOnce (.error e)).events.map RetryEvent.fromOperation) = 0 := by
  constructor
  · rfl
  · simp [getStockListOnce, countWarnings, RetryEvent.isWarning]

theorem secondField_eq_afterFirst (sep : Char) (s : List Char)
    (h : sep ∉ afterFirst sep s) : secondField sep s = afterFirst sep s := by
  unfold secondField
  rw [List.takeWhile_eq_self_iff]
  intro c hc
  have : c ≠ sep := fun hcs => h (hcs ▸ hc)
  simp [this]

/-- C3 (as stated, refuted): for the item `A|B|C` the ticker is `B`, the second
bar-separated field, and not `B|C`, the text after the first bar. -/
theorem getStockList_ticker_is_second_field :
    (getStockList (fun _ => .ok [Item.str "A|B|C"])).result
      = .ok (some [(some "B", "A|B|C")]) ∧
    [Item.str "A|B|C"].filterMap describedPair = [(some "B|C", "A|B|C")] ∧
    (getStockList (fun _ => .ok [Item.str "A|B|C"])).result
      ≠ .ok (some ([Item.str "A|B|C"].filterMap describedPair)) := by
  decide

/-- C3 (amended): when the request answers `data` (in the first attempt, or after
`k <= 4` failed requests), `getStockList` returns, in the order of `data`, exactly
one pair `[ticker, item]` for each item that is a string containing a bar, where
`ticker` is the text between the first bar and the next bar (or the end), and no
pair for any other item; it logs one warning per skipped item.  For an item with a
single bar the ticker is all the text after the bar. -/
theorem getStockList_pairs (responses : Nat → Except JSError (List Item)) (k : Nat)
    (data : List Item) (hk : k ≤ 4)
    (hfail : ∀ i, 1 ≤ i → i ≤ k → ∃ e, responses i = .error e)
    (hok : responses (k + 1) = .ok data) :
    (getStockList responses).result = .ok (some (data.filterMap tickerPair)) ∧
    countWarnings (getStockList responses).events
      = data.countP (fun it => (tickerPair it).isNone) ∧
    (∀ s : String, '|' ∉ afterFirst '|' s.toList →
      tickerPair (Item.str s) = describedPair (Item.str s)) := by
  have hidx : 1 + k = k + 1 := by omega
  have hokOnce : ((fun n => getStockListOnce (responses n)) (1 + k)).result
      = .ok (data.filterMap tickerPair) := by
    show (getStockListOnce (responses (1 + k))).result = _
    rw [hidx, hok]
    exact (getStockListOnce_ok data).1
  refine ⟨?_, ?_, ?_⟩
  · exact (withRetryLoop_success (fun n => getStockListOnce (responses n)) "getStockList"
      (data.filterMap tickerPair) k MAX_RETRIES 1 (by simp [MAX_RETRIES]; omega)
      (by simp [MAX_RETRIES]; omega)
      (fun i h1 h2 => by
        obtain ⟨e, he⟩ := hfail i h1 (by omega)
        exact ⟨e, by show (getStockListOnce (responses i)).result = _; rw [he]; rfl⟩)
      hokOnce).1
  · have hw := withRetryLoop_warnings (fun n => getStockListOnce (responses n)) "getStockList"
      (data.filterMap tickerPair) k MAX_RETRIES 1 (by simp [MAX_RETRIES]; omega)
      (by simp [MAX_RETRIES]; omega)
      (fun i h1 h2 => by
        obtain ⟨e, he⟩ := hfail i h1 (by omega)
        refine ⟨⟨e, ?_⟩, ?_⟩
        · show (getStockListOnce (responses i)).result = _
          rw [he]; rfl
        · show countWarnings ((getStockListOnce (responses i)).events.map _) = 0
          rw [he]; exact (getStockListOnce_error e).2)
      hokOnce
    show countWarnings (withRetryLoop _ _ MAX_RETRIES 1).events = _
    rw [hw]
    show countWarnings ((getStockListOnce (responses (1 + k))).events.map _) = _
    rw [hidx, hok]
    exact (getStockListOnce_ok data).2
  · intro s hs
    have h := secondField_eq_afterFirst '|' s.toList hs
    simp only [tickerPair, describedPair, h]

/-- Witness of `getStockList_pairs`: the response of the specification. -/
theorem getStockList_pairs_witness :
    (getStockList
        (fun _ => .ok [Item.str "A|2330.TW", Item.str "bad-entry", Item.str "B|0050.TWO"])).result
      = .ok (some [(some "2330.TW", "A|2330.TW"), (some "0050.TWO", "B|0050.TWO")]) ∧
    countWarnings (getStockList
        (fun _ => .ok [Item.str "A|2330.TW", Item.str "bad-entry", Item.str "B|0050.TWO"])).events
      = 1 :=
  have h := getStockList_pairs
    (fun _ => .ok [Item.str "A|2330.TW", Item.str "bad-entry", Item.str "B|0050.TWO"]) 0
    [Item.str "A|2330.TW", Item.str "bad-entry", Item.str "B|0050.TWO"] (by decide)
    (fun i h1 h2 => absurd h1 (by omega)) rfl
  ⟨h.1.trans (by decide), h.2.1.trans (by decide)⟩

/-! ## The filter of main -/

theorem isTaiwanStock_iff (ticker : String) :
    isTaiwanStock ticker = true ↔
      (".TW".toList <:+ ticker.toList ∨ ".TWO".toList <:+ ticker.toList) := by
  simp [isTaiwanStock, jsEndsWith]

theorem filterStocks_result (l : List StockItem) :
    ∀ (kept : List StockItem) (evs : List Event), (∀ it ∈ l, ∃ t, it.1 = some t) →
      (filterStocks l kept evs).result = .ok (kept ++ l.filter keptByFilter) := by
  induction l with
  | nil => intro kept evs _; simp [filterStocks]
  | cons item rest ih =>
    intro kept evs hall
    obtain ⟨t, ht⟩ := hall item (List.mem_cons_self _ _)
    have hrest : ∀ it ∈ rest, ∃ t, it.1 = some t :=
      fun it hit => hall it (List.mem_cons_of_mem _ hit)
    by_cases htw : isTaiwanStock t = true
    · have hk : keptByFilter item = true := by simp [keptByFilter, ht, htw]
      simp only [filterStocks, ht, htw, if_true]
      rw [ih _ _ hrest, List.filter_cons_of_pos hk, List.append_assoc]
      rfl
    · have hk : ¬ keptByFilter item = true := by simp [keptByFilter, ht, htw]
      have htw2 : isTaiwanStock t = false := by simpa using htw
      simp only [filterStocks, ht, htw2]
      rw [if_neg (by simp), ih _ _ hrest, List.filter_cons_of_neg hk]

theorem tickerPair_some (item : Item) (it : StockItem) (h : tickerPair item = some it) :
    ∃ t, it.1 = some t := by
  cases item with
  | str s =>
    by_cases hbar : '|' ∈ s.data
    · simp only [tickerPair, String.toList, hbar, if_true, Option.some.injEq] at h
      exact ⟨_, by rw [← h]⟩
    · simp [tickerPair, hbar] at h
  | other t => simp [tickerPair] at h

theorem getStockList_tickers_defined (responses : Nat → Except JSError (List Item))
    (allStocks : List StockItem)
    (h : (getStockList responses).result = .ok (some allStocks)) :
    ∀ it ∈ allStocks, ∃ t, it.1 = some t := by
  have hv := withRetryLoop_value (fun n => getStockListOnce (responses n)) "getStockList"
    (some allStocks) MAX_RETRIES 1 h
  rcases hv with hv | ⟨i, w, hw, hres⟩
  · cases hv
  · have hw2 : allStocks = w := Option.some.inj hw
    subst hw2
    have hres2 : (getStockListOnce (responses i)).result = .ok allStocks := hres
    cases hr : responses i with
    | error e =>
      rw [hr] at hres2
      cases hres2
    | ok data =>
      rw [hr, (getStockListOnce_ok data).1] at hres2
      have hl : data.filterMap tickerPair = allStocks := Except.ok.inj hres2
      intro it hit
      rw [← hl, List.mem_filterMap] at hit
      obtain ⟨item, _, hitem⟩ := hit
      exact tickerPair_some item it hitem

/-- C9: for every list `allStocks` returned by `getStockList`, the filter of `main`
completes and keeps exactly the entries whose ticker ends with `.TW` or `.TWO`, in
their order: the kept list is a sublist of `allStocks`, every kept ticker has one of
the two suffixes, and no entry with such a ticker is dropped. -/
theorem main_filter_keeps_taiwan_stocks (responses : Nat → Except JSError (List Item))
    (allStocks : List StockItem)
    (h : (getStockList responses).result = .ok (some allStocks)) :
    ∃ kept, (filteredStocks allStocks).result = .ok kept ∧
      kept = allStocks.filter keptByFilter ∧
      kept.Sublist allStocks ∧
      (∀ it ∈ kept, ∃ t, it.1 = some t ∧
        (".TW".toList <:+ t.toList ∨ ".TWO".toList <:+ t.toList)) ∧
      (∀ it ∈ allStocks, ∀ t, it.1 = some t →
        (".TW".toList <:+ t.toList ∨ ".TWO".toList <:+ t.toList) → it ∈ kept) := by
  have hall := getStockList_tickers_defined responses allStocks h
  refine ⟨allStocks.filter keptByFilter, ?_, rfl, List.filter_sublist _, ?_, ?_⟩
  · have := filterStocks_result allStocks [] [] hall
    simpa [filteredStocks] using this
  · intro it hit
    obtain ⟨hmem, hk⟩ := List.mem_filter.mp hit
    obtain ⟨t, ht⟩ := hall it hmem
    refine ⟨t, ht, ?_⟩
    have : isTaiwanStock t = true := by simpa [keptByFilter, ht] using hk
    exact (isTaiwanStock_iff t).mp this
  · intro it hit t ht hsuf
    refine List.mem_filter.mpr ⟨hit, ?_⟩
    have := (isTaiwanStock_iff t).mpr hsuf
    simp [keptByFilter, ht, this]

/-- Witness of `main_filter_keeps_taiwan_stocks`: a list with one foreign ticker. -/
theorem main_filter_keeps_taiwan_stocks_witness :
    ∃ kept,
      (filteredStocks [(some "2330.TW", "A|2330.TW"), (some "AAPL", "C|AAPL"),
        (some "0050.TWO", "B|0050.TWO")]).result = .ok kept ∧
      kept = [(some "2330.TW", "A|2330.TW"), (some "0050.TWO", "B|0050.TWO")] :=
  (main_filter_keeps_taiwan_stocks
      (fun _ => .ok [Item.str "A|2330.TW", Item.str "C|AAPL", Item.str "B|0050.TWO"])
      [(some "2330.TW", "A|2330.TW"), (some "AAPL", "C|AAPL"), (some "0050.TWO", "B|0050.TWO")]
      (by decide)).imp
    (fun _ hk => ⟨hk.1, hk.2.1.trans (by decide)⟩)

/-! ## cleanupLogFiles -/

theorem unlinkSync_file (dir : List DirEntry) (name : String)
    (hfiles : ∀ e ∈ dir, e.isDirectory = false) (hmem : ∃ e ∈ dir, e.name = name) :
    unlinkSync dir name = .ok (dir.filter (fun e => e.name ≠ name)) := by
  unfold unlinkSync
  cases hfind : dir.find? (fun e => e.name = name) with
  | none =>
    obtain ⟨e, he, hname⟩ := hmem
    have := List.find?_eq_none.mp hfind e he
    simp [hname] at this
  | some e =>
    have he : e ∈ dir := List.mem_of_find?_eq_some hfind
    simp [hfiles e he]

theorem deleteFiles_all (fs : List FileInfo) :
    ∀ (dir : List DirEntry) (evs : List Event),
      (∀ e ∈ dir, e.isDirectory = false) →
      (∀ f ∈ fs, ∃ e ∈ dir, e.name = f.name) →
      (fs.map FileInfo.name).Nodup →
      deleteFiles fs dir evs =
        (dir.filter (fun e => decide (e.name ∉ fs.map FileInfo.name)),
         evs ++ fs.flatMap (fun f =>
            [Event.unlink f.name, Event.log Level.log (Message.cleanupDeleted f.name)]),
         none) := by
  induction fs with
  | nil => intro dir evs _ _ _; simp [deleteFiles]
  | cons f rest ih =>
    intro dir evs hfiles hpres hnd
    have hu := unlinkSync_file dir f.name hfiles (hpres f (List.mem_cons_self _ _))
    rw [List.map_cons, List.nodup_cons] at hnd
    obtain ⟨hfnot, hndrest⟩ := hnd
    have hfiles2 : ∀ e ∈ dir.filter (fun e => e.name ≠ f.name), e.isDirectory = false :=
      fun e he => hfiles e (List.mem_filter.mp he).1
    have hpres2 : ∀ g ∈ rest, ∃ e ∈ dir.filter (fun e => e.name ≠ f.name), e.name = g.name := by
      intro g hg
      obtain ⟨e, he, hname⟩ := hpres g (List.mem_cons_of_mem _ hg)
      refine ⟨e, List.mem_filter.mpr ⟨he, ?_⟩, hname⟩
      have : g.name ≠ f.name := fun heq => hfnot (heq ▸ List.mem_map_of_mem _ hg)
      simp [hname, this]
    simp only [deleteFiles, hu]
    rw [ih _ _ hfiles2 hpres2 hndrest, List.filter_filter]
    refine Prod.ext ?_ (Prod.ext ?_ rfl)
    · apply List.filter_congr
      intro e _
      simp only [List.map_cons, List.mem_cons, not_or]
      by_cases h1 : e.name = f.name <;> by_cases h2 : e.name ∈ rest.map FileInfo.name <;>
        simp [h1, h2]
    · simp [List.flatMap_cons]

theorem filter_not_mem_right (a b : List FileInfo)
    (hnd : ((a ++ b).map FileInfo.name).Nodup) :
    (a ++ b).filter (fun i => decide (i.name ∉ b.map FileInfo.name)) = a := by
  rw [List.map_append, List.nodup_append] at hnd
  obtain ⟨_, _, hdisj⟩ := hnd
  rw [List.filter_append]
  have ha : a.filter (fun i => decide (i.name ∉ b.map FileInfo.name)) = a := by
    rw [List.filter_eq_self]
    intro i hi
    have : i.name ∉ b.map FileInfo.name := fun hb => hdisj (List.mem_map_of_mem _ hi) hb
    simpa using this
  have hb : b.filter (fun i => decide (i.name ∉ b.map FileInfo.name)) = [] := by
    rw [List.filter_eq_nil_iff]
    intro i hi
    have : i.name ∈ b.map FileInfo.name := List.mem_map_of_mem _ hi
    simpa using this
  rw [ha, hb, List.append_nil]

theorem sortedFiles_perm (dir : List DirEntry) :
    List.Perm (sortedFiles dir) (dir.map toFileInfo) :=
  List.perm_insertionSort _ _

theorem sortedFiles_sorted (dir : List DirEntry) :
    (sortedFiles dir).Pairwise newerFirst :=
  List.sorted_insertionSort _ _

theorem sortedFiles_length (dir : List DirEntry) : (sortedFiles dir).length = dir.length := by
  rw [(sortedFiles_perm dir).length_eq, List.length_map]

theorem sortedFiles_names_nodup (dir : List DirEntry)
    (hnames : (dir.map DirEntry.name).Nodup) :
    ((sortedFiles dir).map FileInfo.name).Nodup := by
  have hp : List.Perm ((sortedFiles dir).map FileInfo.name)
      ((dir.map toFileInfo).map FileInfo.name) :=
    (sortedFiles_perm dir).map _
  rw [hp.nodup_iff, List.map_map]
  exact hnames

/-- The listing left by `cleanupLogFiles` and the names it unlinks, when more than
`MAX_LOG_FILES` entries are found and all are files with distinct names. -/
theorem cleanupLogFiles_many (dir : List DirEntry)
    (hnames : (dir.map DirEntry.name).Nodup)
    (hfiles : ∀ e ∈ dir, e.isDirectory = false) (hmany : dir.length > MAX_LOG_FILES) :
    (cleanupLogFiles dir).1 =
      dir.filter (fun e => decide (e.name ∉
        ((sortedFiles dir).drop MAX_LOG_FILES).map FileInfo.name)) ∧
    unlinked (cleanupLogFiles dir).2 =
      ((sortedFiles dir).drop MAX_LOG_FILES).map FileInfo.name := by
  have hlen : (sortedFiles dir).length > MAX_LOG_FILES := by
    rw [sortedFiles_length]; exact hmany
  have hpres : ∀ f ∈ (sortedFiles dir).drop MAX_LOG_FILES, ∃ e ∈ dir, e.name = f.name := by
    intro f hf
    have hf2 : f ∈ dir.map toFileInfo :=
      (sortedFiles_perm dir).subset (List.mem_of_mem_drop hf)
    obtain ⟨e, he, heq⟩ := List.mem_map.mp hf2
    exact ⟨e, he, by rw [← heq]; rfl⟩
  have hnd : (((sortedFiles dir).drop MAX_LOG_FILES).map FileInfo.name).Nodup := by
    have h := sortedFiles_names_nodup dir hnames
    rw [← List.take_append_drop MAX_LOG_FILES (sortedFiles dir), List.map_append,
      List.nodup_append] at h
    exact h.2.1
  have hdel := fun evs => deleteFiles_all ((sortedFiles dir).drop MAX_LOG_FILES) dir evs
    hfiles hpres hnd
  simp only [cleanupLogFiles, hlen, if_true, hdel]
  refine ⟨trivial, ?_⟩
  generalize (sortedFiles dir).drop MAX_LOG_FILES = fs
  simp only [unlinked, List.filterMap_append, List.filterMap_cons, List.filterMap_nil,
    List.nil_append]
  induction fs with
  | nil => rfl
  | cons f rest ih => simp [List.flatMap_cons, List.filterMap_cons, ih]

theorem cleanupLogFiles_few (dir : List DirEntry) (hfew : ¬ dir.length > MAX_LOG_FILES) :
    (cleanupLogFiles dir).1 = dir ∧ unlinked (cleanupLogFiles dir).2 = [] := by
  have hlen : ¬ (sortedFiles dir).length > MAX_LOG_FILES := by
    rw [sortedFiles_length]; exact hfew
  simp [cleanupLogFiles, hlen, unlinked]

theorem filter_not_mem_drop (l : List FileInfo) (n : Nat)
    (hnd : (l.map FileInfo.name).Nodup) :
    l.filter (fun i => decide (i.name ∉ (l.drop n).map FileInfo.name)) = l.take n := by
  have h := filter_not_mem_right (l.take n) (l.drop n) (by rwa [List.take_append_drop])
  rwa [List.take_append_drop] at h

theorem toFileInfo_injOn (dir : List DirEntry) (hnames : (dir.map DirEntry.name).Nodup)
    (d e : DirEntry) (hd : d ∈ dir) (he : e ∈ dir) (h : d.name = e.name) : d = e :=
  List.inj_on_of_nodup_map hnames hd he h

/-- The survivors of a cleanup are the `MAX_LOG_FILES` first elements of the
sorted array. -/
theorem survivors_perm_take (dir : List DirEntry) (hnames : (dir.map DirEntry.name).Nodup) :
    List.Perm
      ((dir.filter (fun e => decide (e.name ∉
        ((sortedFiles dir).drop MAX_LOG_FILES).map FileInfo.name))).map toFileInfo)
      ((sortedFiles dir).take MAX_LOG_FILES) := by
  have h1 : (dir.filter (fun e => decide (e.name ∉
        ((sortedFiles dir).drop MAX_LOG_FILES).map FileInfo.name))).map toFileInfo =
      (dir.map toFileInfo).filter (fun i => decide (i.name ∉
        ((sortedFiles dir).drop MAX_LOG_FILES).map FileInfo.name)) := by
    rw [List.filter_map]; rfl
  rw [h1, ← filter_not_mem_drop (sortedFiles dir) MAX_LOG_FILES
    (sortedFiles_names_nodup dir hnames)]
  exact (sortedFiles_perm dir).symm.filter _

/-- C10: on a log directory of `n` files (distinct names, no sub-directory),
`cleanupLogFiles` leaves exactly `min(n, 30)` of them, unlinks the other
`n - min(n, 30)`, and every unlinked file has a modification time no later than
that of every file left; with 35 files, 30 are left and 5 are unlinked. -/
theorem cleanupLogFiles_retention (dir : List DirEntry)
    (hnames : (dir.map DirEntry.name).Nodup)
    (hfiles : ∀ e ∈ dir, e.isDirectory = false) :
    (cleanupLogFiles dir).1.length = min dir.length 30 ∧
    (cleanupLogFiles dir).1.Sublist dir ∧
    (unlinked (cleanupLogFiles dir).2).length = dir.length - min dir.length 30 ∧
    (∀ d ∈ dir, (d ∉ (cleanupLogFiles dir).1 ↔ d.name ∈ unlinked (cleanupLogFiles dir).2)) ∧
    (∀ d ∈ dir, d ∉ (cleanupLogFiles dir).1 →
      ∀ s ∈ (cleanupLogFiles dir).1, d.mtime ≤ s.mtime) ∧
    (dir.length = 35 → (cleanupLogFiles dir).1.length = 30 ∧
      (unlinked (cleanupLogFiles dir).2).length = 5) := by
  by_cases hmany : dir.length > MAX_LOG_FILES
  · obtain ⟨hdir, hunl⟩ := cleanupLogFiles_many dir hnames hfiles hmany
    have hmax : MAX_LOG_FILES = 30 := rfl
    have hperm := survivors_perm_take dir hnames
    have hlenS : (sortedFiles dir).length = dir.length := sortedFiles_length dir
    have hlen : (cleanupLogFiles dir).1.length = 30 := by
      rw [hdir, ← List.length_map _ toFileInfo, hperm.length_eq, List.length_take, hlenS]
      rw [hmax] at hmany ⊢
      omega
    have hunlLen : (unlinked (cleanupLogFiles dir).2).length = dir.length - 30 := by
      rw [hunl, List.length_map, List.length_drop, hlenS, hmax]
    have hiff : ∀ d ∈ dir,
        (d ∉ (cleanupLogFiles dir).1 ↔ d.name ∈ unlinked (cleanupLogFiles dir).2) := by
      intro d hd
      rw [hdir, hunl, List.mem_filter]
      simp [hd]
    rw [hmax] at hmany
    refine ⟨by rw [hlen]; omega, by rw [hdir]; exact List.filter_sublist _,
      by rw [hunlLen]; omega, hiff, ?_, fun h35 => ⟨hlen, by rw [hunlLen]; omega⟩⟩
    intro d hd hdnot s hs
    -- the deleted entry is an element of the dropped part of the sorted array
    have hdname : d.name ∈ ((sortedFiles dir).drop MAX_LOG_FILES).map FileInfo.name := by
      rw [← hunl]; exact (hiff d hd).mp hdnot
    obtain ⟨i, hi, hiname⟩ := List.mem_map.mp hdname
    obtain ⟨e, he, hei⟩ := List.mem_map.mp
      ((sortedFiles_perm dir).subset (List.mem_of_mem_drop hi))
    have hed : e = d := toFileInfo_injOn dir hnames e d he hd (by rw [← hiname, ← hei]; rfl)
    have hitime : i.time = d.mtime := by rw [← hei, hed]; rfl
    -- the survivor is an element of the kept part
    have hsin : toFileInfo s ∈ (sortedFiles dir).take MAX_LOG_FILES := by
      rw [hdir] at hs
      exact hperm.subset (List.mem_map_of_mem _ hs)
    have hsorted := sortedFiles_sorted dir
    rw [← List.take_append_drop MAX_LOG_FILES (sortedFiles dir), List.pairwise_append]
      at hsorted
    have := hsorted.2.2 (toFileInfo s) hsin i hi
    have hle : i.time ≤ (toFileInfo s).time := this
    rw [hitime] at hle
    exact hle
  · obtain ⟨hdir, hunl⟩ := cleanupLogFiles_few dir hmany
    have hmax : MAX_LOG_FILES = 30 := rfl
    rw [hmax] at hmany
    rw [hdir, hunl]
    refine ⟨by omega, List.Sublist.refl _, by simp; omega, ?_, ?_, ?_⟩
    · intro d hd; simp [hd]
    · intro d hd hdnot; exact absurd hd hdnot
    · intro h35; omega

set_option maxRecDepth 100000 in
/-- Witness of `cleanupLogFiles_retention`: of 35 files, 30 are left and the 5 with
the smallest modification times are unlinked. -/
theorem cleanupLogFiles_retention_witness :
    (cleanupLogFiles sampleLogDir).1.length = 30 ∧
    (unlinked (cleanupLogFiles sampleLogDir).2).length = 5 ∧
    unlinked (cleanupLogFiles sampleLogDir).2
      = ["run-4.log", "run-3.log", "run-2.log", "run-1.log", "run-0.log"] :=
  have h := (cleanupLogFiles_retention sampleLogDir (by decide) (by decide)).2.2.2.2.2
    (by decide)
  ⟨h.1, h.2, by decide⟩

end StockGrabber
